import Mathlib

/-!
# The gorm model generator of goctl (`tools/goctl/model/sql/gen/gorm.go`)

A shallow embedding of `gormGenerator`: the statement splitter `split`, the
per-table assembler `genModel` / `executeModel`, the batch drivers
`genFromDDL`, `StartFromDDL`, `StartFromInformationSchema`, and the output
materializer `createFile`.

Conventions of the embedding

* A Go `string` is a byte sequence; it is modelled as a `List Char`, one
  character a byte, so that `len`, `s[a:]` and `s[:b]` are `length`, `drop`
  and `take`.
* A Go `error` value is `Option GoError`, `none` being `nil`.
* A slice expression out of range panics in Go; the functions that slice
  return `Option`, `none` being the panic.
* Everything the file calls but does not define (the regexp engine, the DDL
  parser, the fragment generators, the template engine, the naming
  collaborator, the filesystem) is a field of `Env`.
* Calls and console output are recorded in a log, so that statements about
  what was (not) invoked, and in which order, can be made.
-/

namespace Gorm

set_option linter.dupNamespace false

/-- A Go string: a sequence of bytes. -/
abbrev GoString := List Char

/-- A Go `error` that is not `nil`; `msg` is what `Error()` returns. -/
structure GoError where
  msg : GoString
deriving DecidableEq, Repr

/-- The Go slice expression `s[start:]`: panics when `start > len(s)`. -/
def sliceFrom (s : GoString) (start : Nat) : Option GoString :=
  if start ≤ s.length then some (s.drop start) else none

/-- The Go slice expression `s[:stop]`: panics when `stop > len(s)`. -/
def sliceTo (s : GoString) (stop : Nat) : Option GoString :=
  if stop ≤ s.length then some (s.take stop) else none

/-- The loop of `split`, `ms` being the entries `index[i]` still to visit, in
the order the loop visits them (`i` counts down, so `ms` is `index`
reversed):

    subIndex := index[i]
    if len(subIndex) == 0 { continue }
    start := subIndex[0]
    ddl := source[start:]
    list = append(list, ddl)
    source = source[:start]
-/
def splitLoop : List (List Nat) → GoString → List GoString → Option (List GoString)
  | [], _, list => some list
  | subIndex :: ms, source, list =>
    match subIndex with
    | [] => splitLoop ms source list
    | start :: _ =>
      match sliceFrom source start, sliceTo source start with
      | some ddl, some source' => splitLoop ms source' (list ++ [ddl])
      | _, _ => none

/-- The method `gormGenerator.split`. `reg` is
`regexp.MustCompile(createTableFlag).FindAllStringIndex(·, -1)`: the constant
`createTableFlag` is declared outside this file and the regexp engine is the
standard library's, so the compiled matcher is a parameter. -/
def split (reg : GoString → List (List Nat)) (source : GoString) : Option (List GoString) :=
  let index := reg source
  let list : List GoString := []
  splitLoop index.reverse source list

/-- The start offsets `subIndex[0]` of a list of matches. -/
def matchStarts (index : List (List Nat)) : List Nat :=
  index.filterMap List.head?

/-- What the regexp engine promises of `FindAllStringIndex` on a text of
length `L`, as far as `split` relies on it: every match is a non-empty index
slice, the matches come in text order with strictly increasing start offsets,
and every start offset lies within the text. -/
def BoundaryMatches (L : Nat) (index : List (List Nat)) : Prop :=
  (∀ m ∈ index, m ≠ []) ∧ (matchStarts index).Pairwise (· < ·) ∧
    ∀ p ∈ matchStarts index, p ≤ L

/-- The slice `source[p:q]`, for `p ≤ q ≤ len(source)`. -/
def slice (source : GoString) (p q : Nat) : GoString :=
  (source.take q).drop p

/-- The segments of `source` cut at the offsets `ps`, in text order: each
runs from its own offset to the next one, the last to the end of the text. -/
def segmentsAt (source : GoString) : List Nat → List GoString
  | [] => []
  | [p] => [slice source p source.length]
  | p :: q :: ps => slice source p q :: segmentsAt source (q :: ps)

/-- Modelled from the spec: the boundary pattern `createTableFlag` is not in
this file; the spec calls a boundary a `CREATE TABLE` occurrence. This
scanner reports the non-overlapping occurrences of the literal `pat`, left to
right, each as `[start, end]`; `pos` is the offset of the text still to scan
and `skip` the number of bytes of it that belong to the previous match. -/
def scanLiteral (pat : GoString) : Nat → Nat → GoString → List (List Nat)
  | _, _, [] => []
  | pos, skip + 1, _ :: cs => scanLiteral pat (pos + 1) skip cs
  | pos, 0, c :: cs =>
    if pat.isPrefixOf (c :: cs) then
      [pos, pos + pat.length] :: scanLiteral pat (pos + 1) (pat.length - 1) cs
    else scanLiteral pat (pos + 1) 0 cs

/-- Modelled from the spec: the matcher for `CREATE TABLE` boundaries, used
where a concrete matcher is needed. -/
def createTableMatches (source : GoString) : List (List Nat) :=
  scanLiteral "CREATE TABLE".toList 0 0 source

instance (L : Nat) (index : List (List Nat)) : Decidable (BoundaryMatches L index) := by
  unfold BoundaryMatches; infer_instance

/-! ## Data -/

/-- Modelled from the spec: a column of `parser.Table`, a type declared
outside this file (a column descriptor has a name and an SQL type). -/
structure Column where
  Name : GoString
  DataType : GoString
deriving DecidableEq, Repr

/-- Modelled from the spec: `parser.Table`, declared outside this file. The
spec's Table Model has a name, columns, a primary key, unique keys and the
temporal-column flag; `Name` is `Name.Source()`, `PrimaryKey.Name` is
`PrimaryKey.Name.Source()` and `ContainsTime` is the value of
`ContainsTime()`. -/
structure ParserTable where
  Name : GoString
  Columns : List Column
  PrimaryKey : Column
  UniqueKeys : List Column
  ContainsTime : Bool
deriving DecidableEq, Repr

/-- Modelled from the spec: `model.Table`, the information-schema description
of a table, declared outside this file. -/
structure ModelTable where
  Table : GoString
  Columns : List Column
deriving DecidableEq, Repr

/-- The type `Key` of the cache keys `genCacheKeys` returns, declared outside
this file: the spec's cache-key template string. -/
abbrev Key := GoString

/-- The struct `Table` of package `gen` that `genModel` fills in. -/
structure Table where
  Table : ParserTable
  PrimaryCacheKey : Key
  UniqueCacheKey : List Key
  ContainsUniqueCacheKey : Bool
deriving DecidableEq, Repr

/-- The struct `genFindOneByField` returns, with the three fields `genModel` reads. -/
structure findOneCode where
  findOneMethod : GoString
  findOneInterfaceMethod : GoString
  cacheExtra : GoString
deriving DecidableEq, Repr

/-- The struct `gormCode`. -/
structure gormCode where
  importsCode : GoString
  varsCode : GoString
  typesCode : GoString
  newCode : GoString
  insertCode : GoString
  findCode : List GoString
  updateCode : GoString
  deleteCode : GoString
  cacheExtra : GoString
deriving DecidableEq, Repr

/-- The fields of `gormGenerator` the methods read and write; `NamingFormat`
is `cfg.NamingFormat`. The embedded console is the event log. -/
structure gormGenerator where
  dir : GoString
  pkg : GoString
  NamingFormat : GoString

/-- The regular files of the file system: what is stored at a path, if anything. -/
abbrev FS := GoString → Option GoString

/-- The state the methods act on: the generator and the file system. -/
structure World where
  g : gormGenerator
  fs : FS

/-- A Go `map[string]string`, as its list of entries; the keys are distinct. -/
abbrev GoMap := List (GoString × GoString)

/-- The map assignment `m[k] = v`: the entry for `k`, if any, is replaced. -/
def mapSet (m : GoMap) (k v : GoString) : GoMap :=
  (k, v) :: m.filter (fun e => e.1 ≠ k)

/-- The map read `m[k]`, with its presence flag. -/
def mapGet (m : GoMap) (k : GoString) : Option GoString :=
  (m.find? (fun e => e.1 = k)).map Prod.snd

/-- The two templates `util.LoadTemplate` is asked for in this file. -/
inductive TemplateFile
  | modelTemplateFile
  | errTemplateFile
deriving DecidableEq, Repr

/-- The callees of `genModel` and `executeModel`. The call of `genTypes` is
recorded with the interface-method listing it is given. -/
inductive Call
  | genCacheKeys
  | genImports
  | genVars
  | genInsert
  | genFindOne
  | genFindOneByField
  | genUpdate
  | genDelete
  | genTypes (methods : GoString)
  | genNew
  | LoadTemplate
  | Execute
deriving DecidableEq, Repr

/-- What the log records. `call c err`: the callee `c` was invoked and
returned the error `err`. `parse`, `convert`: `parser.Parse` /
`parser.ConvertDataType` returned. `createFile`: `createFile` was entered.
`writeFile`: `ioutil.WriteFile` was called on a path. `saveTo`: the template's
`SaveTo` was called on a path. `warning`, `success`: the console lines. -/
inductive Event
  | call (c : Call) (err : Option GoError)
  | parse (ddl : GoString) (err : Option GoError)
  | convert (table : GoString) (err : Option GoError)
  | createFile
  | writeFile (path data : GoString) (err : Option GoError)
  | saveTo (path : GoString) (err : Option GoError)
  | warning (msg : GoString)
  | success (msg : GoString)
deriving DecidableEq, Repr

/-- Everything the methods call that is defined outside this file. A Go
function returning `(T, error)` is a function into `T × Option GoError`. -/
structure Env where
  /-- The compiled `createTableFlag`, as `FindAllStringIndex(·, -1)`. -/
  reg : GoString → List (List Nat)
  /-- Package `parser`: `Parse` and `ConvertDataType`. -/
  Parse : GoString → ParserTable × Option GoError
  ConvertDataType : ModelTable → ParserTable × Option GoError
  /-- The cache-key derivation and the fragment generators of package `gen`. -/
  genCacheKeys : ParserTable → Key × List Key
  genImports : Bool → Bool → GoString × Option GoError
  genVars : Table → Bool → GoString × Option GoError
  genInsert : Table → Bool → GoString × GoString × Option GoError
  genFindOne : Table → Bool → GoString × GoString × Option GoError
  genFindOneByField : Table → Bool → findOneCode × Option GoError
  genUpdate : Table → Bool → GoString × GoString × Option GoError
  genDelete : Table → Bool → GoString × GoString × Option GoError
  genTypes : Table → GoString → Bool → GoString × Option GoError
  genNew : Table → Bool → GoString × Option GoError
  /-- The helper `modelutil.TrimStringSlice` and the constant `util.NL`. -/
  TrimStringSlice : List GoString → List GoString
  NL : GoString
  /-- The call `util.LoadTemplate(category, file, builtin)`. -/
  LoadTemplate : TemplateFile → GoString × Option GoError
  /-- The call `util.With(name).Parse(text).GoFmt(goFmt).Execute(data)`; the
  buffer it returns is `none` when it is the nil pointer. -/
  Execute : GoString → GoString → Bool → List (GoString × GoString) →
    Option GoString × Option GoError
  /-- The call `util.With(name).Parse(text).SaveTo(data, path, forceUpdate)`,
  run on a file system: the content it writes to `path` (`none` when it
  writes nothing) and its error. It touches no other path. -/
  SaveTo : GoString → GoString → List (GoString × GoString) → GoString → Bool → FS →
    Option GoString × Option GoError
  /-- The calls `format.FileNamingFormat`, `filepath.Abs`, `filepath.Base`,
  `filepath.Join`. -/
  FileNamingFormat : GoString → GoString → GoString × Option GoError
  Abs : GoString → GoString × Option GoError
  Base : GoString → GoString
  Join : GoString → GoString → GoString
  /-- The call `util.MkdirIfNotExist(dir)`: directories are not regular files,
  so only its error is modelled. -/
  MkdirIfNotExist : GoString → FS → Option GoError
  /-- When `ioutil.WriteFile(path, data, perm)` fails on a file system: its
  error and what it has left at `path` (`none` when it left the path as it
  was). `none` is a write that succeeds. -/
  WriteFileFault : GoString → GoString → FS → Option (GoError × Option GoString)

/-- The file system with `path` holding `data`. -/
def FS.write (fs : FS) (path data : GoString) : FS :=
  fun p => if p = path then some data else fs p

/-- The call `ioutil.WriteFile(path, data, os.ModePerm)`: it creates or
replaces the file at `path`, and no other. -/
def WriteFile (E : Env) (path data : GoString) (fs : FS) : FS × Option GoError :=
  match E.WriteFileFault path data fs with
  | none => (fs.write path data, none)
  | some (err, none) => (fs, some err)
  | some (err, some left) => (fs.write path left, some err)

/-- Modelled from the spec: the helper `util.FileExists`, not in this file,
is the spec's existence check. -/
def FileExists (file : GoString) (fs : FS) : Bool :=
  (fs file).isSome

/-- The call `strings.Join(elems, sep)`. -/
def stringsJoin (elems : List GoString) (sep : GoString) : GoString :=
  sep.intercalate elems

/-- The method `String()` of a `*bytes.Buffer`, which answers `<nil>` on the
nil pointer. -/
def bufferString : Option GoString → GoString
  | some b => b
  | none => "<nil>".toList

/-- What a method returns: its value, its error, and the events it logged. -/
structure Ret (α : Type) where
  val : α
  err : Option GoError
  log : List Event

/-- What a method acting on the world returns: its error, the world it
leaves, and the events it logged. -/
structure Run where
  err : Option GoError
  w : World
  log : List Event

/-! ## The methods -/

/-- The method `gormGenerator.executeModel`; an error is returned with the
nil buffer. -/
def executeModel (E : Env) (g : gormGenerator) (code : gormCode) : Ret (Option GoString) :=
  let (text, err) := E.LoadTemplate .modelTemplateFile
  let log := [Event.call .LoadTemplate err]
  if err ≠ none then ⟨none, err, log⟩ else
  let (output, err) := E.Execute "model".toList text true
    [("pkg".toList, g.pkg),
     ("imports".toList, code.importsCode),
     ("vars".toList, code.varsCode),
     ("types".toList, code.typesCode),
     ("new".toList, code.newCode),
     ("insert".toList, code.insertCode),
     ("find".toList, stringsJoin code.findCode "\n".toList),
     ("update".toList, code.updateCode),
     ("delete".toList, code.deleteCode),
     ("extraMethod".toList, code.cacheExtra)]
  let log := log ++ [Event.call .Execute err]
  if err ≠ none then ⟨none, err, log⟩ else
  ⟨output, none, log⟩

/-- The error `fmt.Errorf("table %s: missing primary key", name)`. -/
def missingPrimaryKey (name : GoString) : GoError :=
  ⟨"table ".toList ++ name ++ ": missing primary key".toList⟩

/-- The method `gormGenerator.genModel`. Every `if err != nil { return "", err }`
is an `if err ≠ none then ⟨[], err, log⟩`, the log holding the calls made so far. -/
def genModel (E : Env) (g : gormGenerator) (tin : ParserTable) (withCache : Bool) :
    Ret GoString :=
  if tin.PrimaryKey.Name.length = 0 then
    ⟨[], some (missingPrimaryKey tin.Name), []⟩
  else
  let (primaryKey, uniqueKey) := E.genCacheKeys tin
  let log := [Event.call .genCacheKeys none]
  let (importsCode, err) := E.genImports withCache tin.ContainsTime
  let log := log ++ [Event.call .genImports err]
  if err ≠ none then ⟨[], err, log⟩ else
  let table : Table :=
    { Table := tin
      PrimaryCacheKey := primaryKey
      UniqueCacheKey := uniqueKey
      ContainsUniqueCacheKey := decide (uniqueKey.length > 0) }
  let (varsCode, err) := E.genVars table withCache
  let log := log ++ [Event.call .genVars err]
  if err ≠ none then ⟨[], err, log⟩ else
  let (insertCode, insertCodeMethod, err) := E.genInsert table withCache
  let log := log ++ [Event.call .genInsert err]
  if err ≠ none then ⟨[], err, log⟩ else
  let findCode : List GoString := []
  let (findOneCode, findOneCodeMethod, err) := E.genFindOne table withCache
  let log := log ++ [Event.call .genFindOne err]
  if err ≠ none then ⟨[], err, log⟩ else
  let (ret, err) := E.genFindOneByField table withCache
  let log := log ++ [Event.call .genFindOneByField err]
  if err ≠ none then ⟨[], err, log⟩ else
  let findCode := findCode ++ [findOneCode, ret.findOneMethod]
  let (updateCode, updateCodeMethod, err) := E.genUpdate table withCache
  let log := log ++ [Event.call .genUpdate err]
  if err ≠ none then ⟨[], err, log⟩ else
  let (deleteCode, deleteCodeMethod, err) := E.genDelete table withCache
  let log := log ++ [Event.call .genDelete err]
  if err ≠ none then ⟨[], err, log⟩ else
  let list : List GoString := []
  let list := list ++ [insertCodeMethod, findOneCodeMethod, ret.findOneInterfaceMethod,
    updateCodeMethod, deleteCodeMethod]
  let methods := stringsJoin (E.TrimStringSlice list) E.NL
  let (typesCode, err) := E.genTypes table methods withCache
  let log := log ++ [Event.call (.genTypes methods) err]
  if err ≠ none then ⟨[], err, log⟩ else
  let (newCode, err) := E.genNew table withCache
  let log := log ++ [Event.call .genNew err]
  if err ≠ none then ⟨[], err, log⟩ else
  let code : gormCode :=
    { importsCode := importsCode
      varsCode := varsCode
      typesCode := typesCode
      newCode := newCode
      insertCode := insertCode
      findCode := findCode
      updateCode := updateCode
      deleteCode := deleteCode
      cacheExtra := ret.cacheExtra }
  let r := executeModel E g code
  let log := log ++ r.log
  if r.err ≠ none then ⟨[], r.err, log⟩ else
  ⟨bufferString r.val, none, log⟩

/-- The loop of `genFromDDL` over the statements still to visit, with the map
`m` built so far; an error is returned with the nil map. -/
def genFromDDLLoop (E : Env) (g : gormGenerator) (withCache : Bool) :
    List GoString → GoMap → Ret GoMap
  | [], m => ⟨m, none, []⟩
  | ddl :: ddlList, m =>
    let (table, err) := E.Parse ddl
    let log := [Event.parse ddl err]
    if err ≠ none then ⟨[], err, log⟩ else
    let r := genModel E g table withCache
    let log := log ++ r.log
    if r.err ≠ none then ⟨[], r.err, log⟩ else
    let rest := genFromDDLLoop E g withCache ddlList (mapSet m table.Name r.val)
    ⟨rest.val, rest.err, log ++ rest.log⟩

/-- The method `gormGenerator.genFromDDL`; `none` is a panic of `split`. -/
def genFromDDL (E : Env) (g : gormGenerator) (source : GoString) (withCache : Bool) :
    Option (Ret GoMap) :=
  match split E.reg source with
  | none => none
  | some ddlList =>
    let m : GoMap := []
    some (genFromDDLLoop E g withCache ddlList m)

/-- The loop of `createFile` over the entries of `modelList` still to visit,
in the order the `range` statement visits them. -/
def createFileLoop (E : Env) (dirAbs : GoString) : GoMap → World → Run
  | [], w => ⟨none, w, []⟩
  | (tableName, code) :: modelList, w =>
    let tn := tableName
    let (modelFilename, err) := E.FileNamingFormat w.g.NamingFormat (tn ++ "_model".toList)
    if err ≠ none then ⟨err, w, []⟩ else
    let name := modelFilename ++ ".go".toList
    let filename := E.Join dirAbs name
    if FileExists filename w.fs then
      let log := [Event.warning (name ++ " already exists, ignored.".toList)]
      let rest := createFileLoop E dirAbs modelList w
      ⟨rest.err, rest.w, log ++ rest.log⟩
    else
      let (fs, err) := WriteFile E filename code w.fs
      let log := [Event.writeFile filename code err]
      let w : World := { w with fs := fs }
      if err ≠ none then ⟨err, w, log⟩ else
      let rest := createFileLoop E dirAbs modelList w
      ⟨rest.err, rest.w, log ++ rest.log⟩

/-- The method `gormGenerator.createFile`. -/
def createFile (E : Env) (modelList : GoMap) (w : World) : Run :=
  let log := [Event.createFile]
  let (dirAbs, err) := E.Abs w.g.dir
  if err ≠ none then ⟨err, w, log⟩ else
  let w : World := { w with g := { w.g with dir := dirAbs, pkg := E.Base dirAbs } }
  let err := E.MkdirIfNotExist dirAbs w.fs
  if err ≠ none then ⟨err, w, log⟩ else
  let loop := createFileLoop E dirAbs modelList w
  let w := loop.w
  let log := log ++ loop.log
  if loop.err ≠ none then ⟨loop.err, w, log⟩ else
  let (varFilename, err) := E.FileNamingFormat w.g.NamingFormat "vars".toList
  if err ≠ none then ⟨err, w, log⟩ else
  let filename := E.Join dirAbs (varFilename ++ ".go".toList)
  let (text, err) := E.LoadTemplate .errTemplateFile
  if err ≠ none then ⟨err, w, log⟩ else
  let (saved, err) := E.SaveTo "vars".toList text [("pkg".toList, w.g.pkg)] filename false w.fs
  let w : World :=
    match saved with
    | some data => { w with fs := w.fs.write filename data }
    | none => w
  let log := log ++ [Event.saveTo filename err]
  if err ≠ none then ⟨err, w, log⟩ else
  ⟨none, w, log ++ [Event.success "Done.".toList]⟩

/-- The method `gormGenerator.StartFromDDL`; `none` is a panic of `split`. -/
def StartFromDDL (E : Env) (source : GoString) (withCache : Bool) (w : World) : Option Run :=
  match genFromDDL E w.g source withCache with
  | none => none
  | some r =>
    if r.err ≠ none then some ⟨r.err, w, r.log⟩ else
    let c := createFile E r.val w
    some ⟨c.err, c.w, r.log ++ c.log⟩

/-- The loop of `StartFromInformationSchema` over the tables still to visit,
in the order the `range` statement visits them. -/
def informationSchemaLoop (E : Env) (g : gormGenerator) (withCache : Bool) :
    List ModelTable → GoMap → Ret GoMap
  | [], m => ⟨m, none, []⟩
  | each :: tables, m =>
    let (table, err) := E.ConvertDataType each
    let log := [Event.convert each.Table err]
    if err ≠ none then ⟨[], err, log⟩ else
    let r := genModel E g table withCache
    let log := log ++ r.log
    if r.err ≠ none then ⟨[], r.err, log⟩ else
    let rest := informationSchemaLoop E g withCache tables (mapSet m table.Name r.val)
    ⟨rest.val, rest.err, log ++ rest.log⟩

/-- The method `gormGenerator.StartFromInformationSchema`; `tables` holds the
values of the map in the order the `range` statement visits them. -/
def StartFromInformationSchema (E : Env) (tables : List ModelTable) (withCache : Bool)
    (w : World) : Run :=
  let m : GoMap := []
  let r := informationSchemaLoop E w.g withCache tables m
  if r.err ≠ none then ⟨r.err, w, r.log⟩ else
  let c := createFile E r.val w
  ⟨c.err, c.w, r.log ++ c.log⟩

/-! ## The shape of `genModel`, for the proofs -/

/-- One call of a generator from `genModel`: the call is logged; an error ends
`genModel` with the empty output, otherwise `k` goes on with the value. -/
def andThen {α : Type} (log : List Event) (c : Call) (r : α × Option GoError)
    (k : α → List Event → Ret GoString) : Ret GoString :=
  if r.2 ≠ none then ⟨[], r.2, log ++ [Event.call c r.2]⟩
  else k r.1 (log ++ [Event.call c r.2])

/-- The table `genModel` hands to the generators. -/
def genTable (E : Env) (tin : ParserTable) : Table :=
  { Table := tin
    PrimaryCacheKey := (E.genCacheKeys tin).1
    UniqueCacheKey := (E.genCacheKeys tin).2
    ContainsUniqueCacheKey := decide ((E.genCacheKeys tin).2.length > 0) }

/-- The interface-method listing `genModel` hands to `genTypes`. -/
def genMethods (E : Env) (tin : ParserTable) (withCache : Bool) : GoString :=
  stringsJoin (E.TrimStringSlice
    [(E.genInsert (genTable E tin) withCache).2.1,
     (E.genFindOne (genTable E tin) withCache).2.1,
     (E.genFindOneByField (genTable E tin) withCache).1.findOneInterfaceMethod,
     (E.genUpdate (genTable E tin) withCache).2.1,
     (E.genDelete (genTable E tin) withCache).2.1]) E.NL

/-- The log of calls that all returned without an error. -/
def callsOk (cs : List Call) : List Event :=
  cs.map fun c => Event.call c none

/-- The data `executeModel` hands to the template engine. -/
def templateData (g : gormGenerator) (code : gormCode) : List (GoString × GoString) :=
  [("pkg".toList, g.pkg),
   ("imports".toList, code.importsCode),
   ("vars".toList, code.varsCode),
   ("types".toList, code.typesCode),
   ("new".toList, code.newCode),
   ("insert".toList, code.insertCode),
   ("find".toList, stringsJoin code.findCode "\n".toList),
   ("update".toList, code.updateCode),
   ("delete".toList, code.deleteCode),
   ("extraMethod".toList, code.cacheExtra)]

/-- The `gormCode` that `genModel` assembles from what the generators return. -/
def genCode (E : Env) (tin : ParserTable) (withCache : Bool) : gormCode :=
  { importsCode := (E.genImports withCache tin.ContainsTime).1
    varsCode := (E.genVars (genTable E tin) withCache).1
    typesCode := (E.genTypes (genTable E tin) (genMethods E tin withCache) withCache).1
    newCode := (E.genNew (genTable E tin) withCache).1
    insertCode := (E.genInsert (genTable E tin) withCache).1
    findCode := [(E.genFindOne (genTable E tin) withCache).1,
      (E.genFindOneByField (genTable E tin) withCache).1.findOneMethod]
    updateCode := (E.genUpdate (genTable E tin) withCache).1
    deleteCode := (E.genDelete (genTable E tin) withCache).1
    cacheExtra := (E.genFindOneByField (genTable E tin) withCache).1.cacheExtra }

/-- What the template engine returns for the code `genModel` assembles. -/
def executed (E : Env) (g : gormGenerator) (tin : ParserTable) (withCache : Bool) :
    Option GoString × Option GoError :=
  E.Execute "model".toList (E.LoadTemplate .modelTemplateFile).1 true
    (templateData g (genCode E tin withCache))

/-- The calls `genModel` makes on a table with a primary key, in the order of
the source, each with the error the callee returns for the arguments
`genModel` gives it. -/
def genStages (E : Env) (g : gormGenerator) (tin : ParserTable) (withCache : Bool) :
    List (Call × Option GoError) :=
  [(.genCacheKeys, none),
   (.genImports, (E.genImports withCache tin.ContainsTime).2),
   (.genVars, (E.genVars (genTable E tin) withCache).2),
   (.genInsert, (E.genInsert (genTable E tin) withCache).2.2),
   (.genFindOne, (E.genFindOne (genTable E tin) withCache).2.2),
   (.genFindOneByField, (E.genFindOneByField (genTable E tin) withCache).2),
   (.genUpdate, (E.genUpdate (genTable E tin) withCache).2.2),
   (.genDelete, (E.genDelete (genTable E tin) withCache).2.2),
   (.genTypes (genMethods E tin withCache),
     (E.genTypes (genTable E tin) (genMethods E tin withCache) withCache).2),
   (.genNew, (E.genNew (genTable E tin) withCache).2),
   (.LoadTemplate, (E.LoadTemplate .modelTemplateFile).2),
   (.Execute, (executed E g tin withCache).2)]

/-- The first error in a list of calls, if any. -/
def firstErr : List (Call × Option GoError) → Option GoError
  | [] => none
  | (_, some e) :: _ => some e
  | (_, none) :: stages => firstErr stages

/-- The calls up to and including the first one that returned an error. -/
def untilErr : List (Call × Option GoError) → List (Call × Option GoError)
  | [] => []
  | (c, some e) :: _ => [(c, some e)]
  | (c, none) :: stages => (c, none) :: untilErr stages

/-- The log entry of a call and the error it returned. -/
def stageEvent (s : Call × Option GoError) : Event :=
  Event.call s.1 s.2

/-- The events `parser.Parse`, `parser.ConvertDataType` and the generators log. -/
def Event.isGen : Event → Bool
  | .call _ _ => true
  | .parse _ _ => true
  | .convert _ _ => true
  | _ => false

/-! ## The paths of `createFile`, for the statements -/

/-- The file name `createFile` computes for a table: the naming format of
`<table>_model`, plus `.go`. -/
def tableFile (E : Env) (namingFormat tableName : GoString) : GoString :=
  (E.FileNamingFormat namingFormat (tableName ++ "_model".toList)).1 ++ ".go".toList

/-- The path `createFile` computes for a table, inside the directory `dirAbs`. -/
def tablePath (E : Env) (namingFormat dirAbs tableName : GoString) : GoString :=
  E.Join dirAbs (tableFile E namingFormat tableName)

/-- The path `createFile` computes for the shared vars file. -/
def varsPath (E : Env) (namingFormat dirAbs : GoString) : GoString :=
  E.Join dirAbs ((E.FileNamingFormat namingFormat "vars".toList).1 ++ ".go".toList)

/-- The world `createFile` runs its loop in: the generator's `dir` and `pkg`
are set from the absolute destination directory. -/
def inDir (E : Env) (w : World) : World :=
  { w with g := { w.g with dir := (E.Abs w.g.dir).1, pkg := E.Base (E.Abs w.g.dir).1 } }

/-- The statements of `createFile` that follow its loop, `loop` being what
the loop has returned: the return on the loop's error, then the shared vars
file and the success line. -/
def createFileTail (E : Env) (dirAbs : GoString) (loop : Run) : Run :=
  if loop.err ≠ none then ⟨loop.err, loop.w, [Event.createFile] ++ loop.log⟩ else
  if (E.FileNamingFormat loop.w.g.NamingFormat "vars".toList).2 ≠ none then
    ⟨(E.FileNamingFormat loop.w.g.NamingFormat "vars".toList).2, loop.w,
      [Event.createFile] ++ loop.log⟩ else
  if (E.LoadTemplate .errTemplateFile).2 ≠ none then
    ⟨(E.LoadTemplate .errTemplateFile).2, loop.w, [Event.createFile] ++ loop.log⟩ else
  (fun (saved : Option GoString × Option GoError) =>
    (fun (w : World) =>
      if saved.2 ≠ none then
        (⟨saved.2, w, [Event.createFile] ++ loop.log
          ++ [Event.saveTo (varsPath E loop.w.g.NamingFormat dirAbs) saved.2]⟩ : Run)
      else
        ⟨none, w, [Event.createFile] ++ loop.log
          ++ [Event.saveTo (varsPath E loop.w.g.NamingFormat dirAbs) saved.2]
          ++ [Event.success "Done.".toList]⟩)
    (match saved.1 with
      | some data =>
        { loop.w with fs := loop.w.fs.write (varsPath E loop.w.g.NamingFormat dirAbs) data }
      | none => loop.w))
  (E.SaveTo "vars".toList (E.LoadTemplate .errTemplateFile).1 [("pkg".toList, loop.w.g.pkg)]
    (varsPath E loop.w.g.NamingFormat dirAbs) false loop.w.fs)

/-- The line `g.Warning("%s already exists, ignored.", name)` for a table. -/
def skipWarning (E : Env) (namingFormat tableName : GoString) : Event :=
  Event.warning (tableFile E namingFormat tableName ++ " already exists, ignored.".toList)

/-! ## A concrete environment

The worked examples below run the methods in `demoEnv`, a small stand-in for
the collaborators: a parser for statements of the shape
`CREATE TABLE <name> (<primary key>);`, generators that emit short fixed
fragments, a template engine that pastes the package name and the type
declaration, and a file system on which every write succeeds. -/

/-- The example parser: the table name is the word after `CREATE TABLE `, the
primary key is what stands between `(` and `)`; a statement without ` (`
after the name does not parse. -/
def demoParse (ddl : GoString) : ParserTable × Option GoError :=
  let rest := ddl.drop "CREATE TABLE ".length
  let name := rest.takeWhile (fun c => c ≠ ' ')
  let tail := rest.dropWhile (fun c => c ≠ ' ')
  if " (".toList.isPrefixOf tail then
    let pk := (tail.drop 2).takeWhile (fun c => c ≠ ')')
    (⟨name, [⟨pk, "bigint".toList⟩], ⟨pk, "bigint".toList⟩, [], false⟩, none)
  else
    (⟨[], [], ⟨[], []⟩, [], false⟩, some ⟨"syntax error near ".toList ++ name⟩)

/-- The example environment. Its delete generator fails for the table named
`bad`; everything else succeeds. -/
def demoEnv : Env where
  reg := createTableMatches
  Parse := demoParse
  ConvertDataType := fun t =>
    (⟨t.Table, t.Columns, t.Columns.headD ⟨[], []⟩, [], false⟩, none)
  genCacheKeys := fun t => ("cache:".toList ++ t.Name ++ ":".toList ++ t.PrimaryKey.Name, [])
  genImports := fun _ _ => ("import".toList, none)
  genVars := fun _ _ => ("var".toList, none)
  genInsert := fun _ _ => ("func Insert".toList, "Insert()".toList, none)
  genFindOne := fun _ _ => ("func FindOne".toList, "FindOne()".toList, none)
  genFindOneByField := fun t _ =>
    if t.ContainsUniqueCacheKey then
      (⟨"func FindOneByKey".toList, "FindOneByKey()".toList, "extra".toList⟩, none)
    else (⟨[], [], []⟩, none)
  genUpdate := fun _ _ => ("func Update".toList, "Update()".toList, none)
  genDelete := fun t _ =>
    if t.Table.Name = "bad".toList then ([], [], some ⟨"delete: bad template".toList⟩)
    else ("func Delete".toList, "Delete()".toList, none)
  genTypes := fun t methods _ => (t.PrimaryCacheKey ++ "|".toList ++ methods, none)
  genNew := fun _ _ => ("new".toList, none)
  TrimStringSlice := fun list => list.filter (fun item => item.length ≠ 0)
  NL := "\n".toList
  LoadTemplate := fun _ => ("tpl".toList, none)
  Execute := fun _ _ _ data =>
    (some ((data.lookup "pkg".toList).getD [] ++ "|".toList
      ++ (data.lookup "types".toList).getD []), none)
  SaveTo := fun _ _ data _ _ _ => (some ((data.lookup "pkg".toList).getD []), none)
  FileNamingFormat := fun _ content => (content.filter (fun c => c ≠ '_'), none)
  Abs := fun dir => (dir, none)
  Base := fun dir => (dir.reverse.takeWhile (fun c => c ≠ '/')).reverse
  Join := fun dir name => dir ++ "/".toList ++ name
  MkdirIfNotExist := fun _ _ => none
  WriteFileFault := fun _ _ _ => none

/-- The example generator, writing to `/m`. -/
def demoGen : gormGenerator := ⟨"/m".toList, "m".toList, "gozero".toList⟩

/-- The example world: the example generator and an empty file system. -/
def demoWorld : World := ⟨demoGen, fun _ => none⟩

/-- The example world with a hand-edited `/m/amodel.go` in place. -/
def demoWorldEdited : World :=
  ⟨demoGen, FS.write (fun _ => none) "/m/amodel.go".toList "mine".toList⟩

/-- The example table `a` with primary key `id`. -/
def demoTable : ParserTable :=
  ⟨"a".toList, [⟨"id".toList, "bigint".toList⟩], ⟨"id".toList, "bigint".toList⟩, [], false⟩

/-- The example table `b`, which has no primary key. -/
def demoTableNoKey : ParserTable := ⟨"b".toList, [], ⟨[], []⟩, [], false⟩

/-- The example table `bad`, whose delete fragment fails to generate. -/
def demoTableBad : ParserTable :=
  ⟨"bad".toList, [⟨"id".toList, "bigint".toList⟩], ⟨"id".toList, "bigint".toList⟩, [], false⟩

/-- The example batch of three tables, a statement a line, whose second
statement does not parse. -/
def demoBatchMalformed : GoString :=
  "CREATE TABLE a (id);\nCREATE TABLE b oops;\nCREATE TABLE c (id);\n".toList

/-- The example batch of three tables whose second table has no primary key. -/
def demoBatchNoKey : GoString :=
  "CREATE TABLE a (id);\nCREATE TABLE b ();\nCREATE TABLE c (id);\n".toList

/-- The example batch with the tables `a` and `c` only. -/
def demoBatchSiblings : GoString := "CREATE TABLE a (id);\nCREATE TABLE c (id);\n".toList

/-- The example script that defines table `a` twice, first with primary key
`id`, then with primary key `k`. -/
def demoScriptTwice : GoString := "CREATE TABLE a (id);\nCREATE TABLE a (k);\n".toList

/-- The example information-schema batch of three tables whose second table
has no column, hence no primary key. -/
def demoTables : List ModelTable :=
  [⟨"a".toList, [⟨"id".toList, "bigint".toList⟩]⟩, ⟨"b".toList, []⟩,
   ⟨"c".toList, [⟨"id".toList, "bigint".toList⟩]⟩]

/-- The example model list: the tables `a` and `c` with their code. -/
def demoModels : GoMap := [("a".toList, "code a".toList), ("c".toList, "code c".toList)]

/-- The example batch with the tables `bad` and `a`; the statement of `a`, the
last in the text, is the first one visited. -/
def demoBatchBad : GoString := "CREATE TABLE bad (id);\nCREATE TABLE a (id);\n".toList

/-- The example environment on a full disk: writing `/m/cmodel.go` fails and
leaves nothing behind. -/
def demoEnvDiskFull : Env :=
  { demoEnv with
    WriteFileFault := fun path _ _ =>
      if path = "/m/cmodel.go".toList then some (⟨"disk full".toList⟩, none) else none }

/-- The example model list in the order that visits table `c` first. -/
def demoModelsCFirst : GoMap := [("c".toList, "code c".toList), ("a".toList, "code a".toList)]

/-- The calls `genModel` makes on the example table `bad` before the delete
generator, none of which returns an error. -/
def demoBadBefore : List (Call × Option GoError) :=
  [(.genCacheKeys, none), (.genImports, none), (.genVars, none), (.genInsert, none),
    (.genFindOne, none), (.genFindOneByField, none), (.genUpdate, none)]

/-- The calls `genModel` would make on the example table `bad` after the
delete generator. -/
def demoBadAfter : List (Call × Option GoError) :=
  [(.genTypes "Insert()\nFindOne()\nUpdate()".toList, none), (.genNew, none),
    (.LoadTemplate, none), (.Execute, none)]

/-- The example script of the spec, two statements on one line. -/
def demoScript : GoString := "CREATE TABLE a (...); CREATE TABLE b (...);".toList

/-- The example script behind a comment line and a `DROP TABLE`. -/
def demoScriptWithPreamble : GoString :=
  "-- users\nDROP TABLE a;\nCREATE TABLE a (...);\nCREATE TABLE b (...);\n".toList

/-! ## The splitter: lemmas -/

theorem slice_take_of_le (source : GoString) {p q r : Nat} (h : q ≤ r) :
    slice (source.take r) p q = slice source p q := by
  simp [slice, List.take_take, Nat.min_eq_left h]

theorem segmentsAt_length (source : GoString) (ps : List Nat) :
    (segmentsAt source ps).length = ps.length := by
  induction ps with
  | nil => rfl
  | cons p ps ih =>
    cases ps with
    | nil => rfl
    | cons q ps => simpa [segmentsAt] using ih

/-- Cutting at one more, later offset `q` appends the suffix from `q` and
leaves the earlier segments as those of the text truncated at `q`. -/
theorem segmentsAt_snoc (source : GoString) (q : Nat) (hq : q ≤ source.length) :
    ∀ ps : List Nat, (∀ p ∈ ps, p < q) →
      segmentsAt source (ps ++ [q]) = segmentsAt (source.take q) ps ++ [source.drop q]
  | [], _ => by simp [segmentsAt, slice]
  | [p], _ => by
    simp [segmentsAt, slice, List.take_take, Nat.min_eq_left hq]
  | p :: p' :: ps, h => by
    have h' : ∀ x ∈ p' :: ps, x < q := fun x hx => h x (List.mem_cons_of_mem _ hx)
    have hp' : p' ≤ q := Nat.le_of_lt (h p' (by simp))
    have ih := segmentsAt_snoc source q hq (p' :: ps) h'
    simp only [List.cons_append] at ih ⊢
    simp only [segmentsAt, ih, slice_take_of_le source hp', List.cons_append]

theorem matchStarts_append (a b : List (List Nat)) :
    matchStarts (a ++ b) = matchStarts a ++ matchStarts b := by
  simp [matchStarts, List.filterMap_append]

theorem matchStarts_length (index : List (List Nat)) (h : ∀ m ∈ index, m ≠ []) :
    (matchStarts index).length = index.length := by
  induction index with
  | nil => rfl
  | cons m ms ih =>
    have hm : m ≠ [] := h m (by simp)
    have hms : ∀ x ∈ ms, x ≠ [] := fun x hx => h x (List.mem_cons_of_mem _ hx)
    cases m with
    | nil => exact absurd rfl hm
    | cons s t => simpa [matchStarts] using ih hms

/-- The loop of `split` run over well-formed matches: nothing panics and the
segments are appended last boundary first. -/
theorem splitLoop_eq (index : List (List Nat)) :
    ∀ (source : GoString) (acc : List GoString), BoundaryMatches source.length index →
      splitLoop index.reverse source acc
        = some (acc ++ (segmentsAt source (matchStarts index)).reverse) := by
  induction index using List.reverseRecOn with
  | nil => intro source acc _; simp [splitLoop, matchStarts, segmentsAt]
  | append_singleton index m ih =>
    intro source acc h
    obtain ⟨hne, hsorted, hle⟩ := h
    have hm : m ≠ [] := hne m (by simp)
    cases m with
    | nil => exact absurd rfl hm
    | cons start rest =>
      have hst : matchStarts (index ++ [start :: rest]) = matchStarts index ++ [start] := by
        simp [matchStarts_append, matchStarts]
      rw [hst] at hsorted hle
      have hstart : start ≤ source.length := hle start (by simp)
      have hlt : ∀ p ∈ matchStarts index, p < start := by
        intro p hp
        exact (List.pairwise_append.1 hsorted).2.2 p hp start (by simp)
      have hlen : (source.take start).length = start := by simp [hstart]
      have hih : BoundaryMatches (source.take start).length index := by
        refine ⟨fun x hx => hne x (by simp [hx]), (List.pairwise_append.1 hsorted).1, ?_⟩
        intro p hp
        rw [hlen]
        exact Nat.le_of_lt (hlt p hp)
      rw [hst, segmentsAt_snoc source start hstart _ hlt]
      simp only [List.reverse_append, List.reverse_cons, List.reverse_nil, List.nil_append,
        List.singleton_append, splitLoop, sliceFrom, sliceTo, hstart, if_true]
      rw [ih (source.take start) (acc ++ [source.drop start]) hih]
      simp

/-- The segments cut at increasing offsets, put together again, are the text
from the first offset on. -/
theorem segmentsAt_flatten (source : GoString) :
    ∀ (p : Nat) (ps : List Nat), (p :: ps).Pairwise (· < ·) → (∀ x ∈ p :: ps, x ≤ source.length) →
      (segmentsAt source (p :: ps)).flatten = source.drop p
  | p, [], _, _ => by simp [segmentsAt, slice]
  | p, q :: ps, hs, hl => by
    have hpq : p < q := (List.pairwise_cons.1 hs).1 q (by simp)
    have hq : q ≤ source.length := hl q (by simp)
    have ih := segmentsAt_flatten source q ps (List.pairwise_cons.1 hs).2
      (fun x hx => hl x (List.mem_cons_of_mem _ hx))
    simp only [segmentsAt, List.flatten_cons, ih, slice]
    have hlen : p ≤ (source.take q).length := by
      simp only [List.length_take]; omega
    rw [← List.drop_append_of_le_length hlen, List.take_append_drop]

/-! ## The splitter: claims -/

/-- C1: on every source text whose boundary matches are well formed, `split`
returns (it does not panic) a list with exactly as many segments as there are
matches; with no match at all it returns the empty list. -/
theorem split_length_eq_matches (reg : GoString → List (List Nat)) (source : GoString)
    (h : BoundaryMatches source.length (reg source)) :
    ∃ list, split reg source = some list ∧ list.length = (reg source).length ∧
      (reg source = [] → list = []) := by
  refine ⟨(segmentsAt source (matchStarts (reg source))).reverse, ?_, ?_, ?_⟩
  · simpa [split] using splitLoop_eq (reg source) source [] h
  · rw [List.length_reverse, segmentsAt_length, matchStarts_length _ h.1]
  · intro h0
    simp [h0, matchStarts, segmentsAt]

/-- C1 at the spec's example: two boundaries, two segments. -/
theorem split_length_eq_matches_witness :
    BoundaryMatches demoScript.length (createTableMatches demoScript) ∧
      ∃ list, split createTableMatches demoScript = some list ∧
        list.length = (createTableMatches demoScript).length ∧
        (createTableMatches demoScript = [] → list = []) :=
  ⟨by decide, split_length_eq_matches createTableMatches demoScript (by decide)⟩

/-- C2: on every source text whose matches start at `p_0 < ... < p_(N-1)`,
`split` returns the segments cut at those offsets in reverse text order:
`[source[p_(N-1):L], source[p_(N-2):p_(N-1)], ..., source[p_0:p_1]]`. -/
theorem split_eq_reversed_segments (reg : GoString → List (List Nat)) (source : GoString)
    (h : BoundaryMatches source.length (reg source)) :
    split reg source = some (segmentsAt source (matchStarts (reg source))).reverse := by
  simpa [split] using splitLoop_eq (reg source) source [] h

/-- C2 at the spec's example: the segment of table `b` comes first, the
segment of table `a` second. -/
theorem split_eq_reversed_segments_witness :
    BoundaryMatches demoScript.length (createTableMatches demoScript) ∧
      split createTableMatches demoScript
        = some ["CREATE TABLE b (...);".toList, "CREATE TABLE a (...); ".toList] :=
  ⟨by decide, (split_eq_reversed_segments createTableMatches demoScript (by decide)).trans
    (by decide)⟩

/-- C3: on every source text with at least one boundary match, the segments
`split` returns, put together in reverse of their output order, are exactly
the text from the first boundary on; the text before it is in no segment, and
a source that begins at a boundary is reconstructed whole. -/
theorem split_concat_eq_suffix (reg : GoString → List (List Nat)) (source : GoString)
    (h : BoundaryMatches source.length (reg source)) (hne : reg source ≠ []) :
    ∃ list p₀, split reg source = some list ∧ (matchStarts (reg source)).head? = some p₀ ∧
      list.reverse.flatten = source.drop p₀ ∧ (p₀ = 0 → list.reverse.flatten = source) := by
  have hlen := matchStarts_length _ h.1
  cases hps : matchStarts (reg source) with
  | nil =>
    rw [hps] at hlen
    exact absurd (List.length_eq_zero.1 hlen.symm) hne
  | cons p₀ ps =>
    have hj : (segmentsAt source (p₀ :: ps)).flatten = source.drop p₀ :=
      segmentsAt_flatten source p₀ ps (hps ▸ h.2.1) (hps ▸ h.2.2)
    refine ⟨(segmentsAt source (p₀ :: ps)).reverse, p₀, ?_, rfl, ?_, ?_⟩
    · rw [← hps]; simpa [split] using splitLoop_eq (reg source) source [] h
    · rw [List.reverse_reverse, hj]
    · intro h0
      rw [List.reverse_reverse, hj, h0, List.drop_zero]

/-- C3 at the example script with a preamble: the comment line and the
`DROP TABLE` are in no segment, the rest is recovered. -/
theorem split_concat_eq_suffix_witness :
    (BoundaryMatches demoScriptWithPreamble.length (createTableMatches demoScriptWithPreamble) ∧
      createTableMatches demoScriptWithPreamble ≠ []) ∧
    split createTableMatches demoScriptWithPreamble
      = some ["CREATE TABLE b (...);\n".toList, "CREATE TABLE a (...);\n".toList] ∧
    ∃ list p₀, split createTableMatches demoScriptWithPreamble = some list ∧
      (matchStarts (createTableMatches demoScriptWithPreamble)).head? = some p₀ ∧
      list.reverse.flatten = demoScriptWithPreamble.drop p₀ ∧
      (p₀ = 0 → list.reverse.flatten = demoScriptWithPreamble) :=
  ⟨by decide, by decide,
    split_concat_eq_suffix createTableMatches demoScriptWithPreamble (by decide) (by decide)⟩

/-! ## The assembler: lemmas -/

theorem genModel_eq (E : Env) (g : gormGenerator) (tin : ParserTable) (withCache : Bool) :
    genModel E g tin withCache =
      if tin.PrimaryKey.Name.length = 0 then ⟨[], some (missingPrimaryKey tin.Name), []⟩
      else
      andThen [Event.call .genCacheKeys none] .genImports
        (E.genImports withCache tin.ContainsTime) fun importsCode log =>
      andThen log .genVars (E.genVars (genTable E tin) withCache) fun varsCode log =>
      andThen log .genInsert
        ((E.genInsert (genTable E tin) withCache).1, (E.genInsert (genTable E tin) withCache).2.2)
        fun insertCode log =>
      andThen log .genFindOne
        ((E.genFindOne (genTable E tin) withCache).1, (E.genFindOne (genTable E tin) withCache).2.2)
        fun findOneCode log =>
      andThen log .genFindOneByField (E.genFindOneByField (genTable E tin) withCache)
        fun ret log =>
      andThen log .genUpdate
        ((E.genUpdate (genTable E tin) withCache).1, (E.genUpdate (genTable E tin) withCache).2.2)
        fun updateCode log =>
      andThen log .genDelete
        ((E.genDelete (genTable E tin) withCache).1, (E.genDelete (genTable E tin) withCache).2.2)
        fun deleteCode log =>
      andThen log (.genTypes (genMethods E tin withCache))
        (E.genTypes (genTable E tin) (genMethods E tin withCache) withCache)
        fun typesCode log =>
      andThen log .genNew (E.genNew (genTable E tin) withCache) fun newCode log =>
      let r := executeModel E g
        { importsCode := importsCode
          varsCode := varsCode
          typesCode := typesCode
          newCode := newCode
          insertCode := insertCode
          findCode := [findOneCode, ret.findOneMethod]
          updateCode := updateCode
          deleteCode := deleteCode
          cacheExtra := ret.cacheExtra }
      if r.err ≠ none then ⟨[], r.err, log ++ r.log⟩
      else ⟨bufferString r.val, none, log ++ r.log⟩ := by
  rfl

theorem andThen_of_err {α : Type} (log : List Event) (c : Call) (r : α × Option GoError)
    (k : α → List Event → Ret GoString) {e : GoError} (h : r.2 = some e) :
    andThen log c r k = ⟨[], some e, log ++ [Event.call c (some e)]⟩ := by
  simp [andThen, h]

theorem andThen_of_ok {α : Type} (log : List Event) (c : Call) (r : α × Option GoError)
    (k : α → List Event → Ret GoString) (h : r.2 = none) :
    andThen log c r k = k r.1 (log ++ [Event.call c none]) := by
  simp [andThen, h]

/-- The three ways `executeModel` ends. -/
theorem executeModel_outcome (E : Env) (g : gormGenerator) (code : gormCode)
    (P : Ret (Option GoString) → Prop)
    (hLoad : ∀ e, P ⟨none, some e, [Event.call .LoadTemplate (some e)]⟩)
    (hExec : ∀ e, P ⟨none, some e, callsOk [.LoadTemplate] ++ [Event.call .Execute (some e)]⟩)
    (hOk : ∀ output, P ⟨output, none, callsOk [.LoadTemplate, .Execute]⟩) :
    P (executeModel E g code) := by
  have heq : executeModel E g code =
      (fun (l : GoString × Option GoError) =>
        if l.2 ≠ none then (⟨none, l.2, [Event.call .LoadTemplate l.2]⟩ : Ret (Option GoString))
        else
          (fun (x : Option GoString × Option GoError) =>
            if x.2 ≠ none then
              (⟨none, x.2, [Event.call .LoadTemplate l.2] ++ [Event.call .Execute x.2]⟩ :
                Ret (Option GoString))
            else ⟨x.1, none, [Event.call .LoadTemplate l.2] ++ [Event.call .Execute x.2]⟩)
          (E.Execute "model".toList l.1 true
            [("pkg".toList, g.pkg),
             ("imports".toList, code.importsCode),
             ("vars".toList, code.varsCode),
             ("types".toList, code.typesCode),
             ("new".toList, code.newCode),
             ("insert".toList, code.insertCode),
             ("find".toList, stringsJoin code.findCode "\n".toList),
             ("update".toList, code.updateCode),
             ("delete".toList, code.deleteCode),
             ("extraMethod".toList, code.cacheExtra)]))
        (E.LoadTemplate .modelTemplateFile) := rfl
  rw [heq]
  generalize E.LoadTemplate .modelTemplateFile = l
  rcases l with ⟨text, _ | e⟩
  · dsimp only
    rw [if_neg (by simp)]
    generalize E.Execute _ _ _ _ = x
    rcases x with ⟨output, _ | e⟩
    · simpa using hOk output
    · simpa using hExec e
  · simpa using hLoad e

/-- The ways `genModel` ends on a table with a primary key: at the first
generator that returns an error, with the calls made up to there in the log,
or after all of them with the executed template. -/
theorem genModel_outcome (E : Env) (g : gormGenerator) (tin : ParserTable) (withCache : Bool)
    (hpk : tin.PrimaryKey.Name.length ≠ 0) (P : Ret GoString → Prop)
    (hImports : ∀ e, (E.genImports withCache tin.ContainsTime).2 = some e → P ⟨[], some e,
      callsOk [.genCacheKeys] ++ [Event.call .genImports (some e)]⟩)
    (hVars : ∀ e, (E.genVars (genTable E tin) withCache).2 = some e → P ⟨[], some e,
      callsOk [.genCacheKeys, .genImports] ++ [Event.call .genVars (some e)]⟩)
    (hInsert : ∀ e, (E.genInsert (genTable E tin) withCache).2.2 = some e → P ⟨[], some e,
      callsOk [.genCacheKeys, .genImports, .genVars] ++ [Event.call .genInsert (some e)]⟩)
    (hFindOne : ∀ e, (E.genFindOne (genTable E tin) withCache).2.2 = some e → P ⟨[], some e,
      callsOk [.genCacheKeys, .genImports, .genVars, .genInsert]
        ++ [Event.call .genFindOne (some e)]⟩)
    (hByField : ∀ e, (E.genFindOneByField (genTable E tin) withCache).2 = some e → P ⟨[], some e,
      callsOk [.genCacheKeys, .genImports, .genVars, .genInsert, .genFindOne]
        ++ [Event.call .genFindOneByField (some e)]⟩)
    (hUpdate : ∀ e, (E.genUpdate (genTable E tin) withCache).2.2 = some e → P ⟨[], some e,
      callsOk [.genCacheKeys, .genImports, .genVars, .genInsert, .genFindOne, .genFindOneByField]
        ++ [Event.call .genUpdate (some e)]⟩)
    (hDelete : ∀ e, (E.genDelete (genTable E tin) withCache).2.2 = some e → P ⟨[], some e,
      callsOk [.genCacheKeys, .genImports, .genVars, .genInsert, .genFindOne, .genFindOneByField,
        .genUpdate] ++ [Event.call .genDelete (some e)]⟩)
    (hTypes : ∀ e,
      (E.genTypes (genTable E tin) (genMethods E tin withCache) withCache).2 = some e →
      P ⟨[], some e,
      callsOk [.genCacheKeys, .genImports, .genVars, .genInsert, .genFindOne, .genFindOneByField,
        .genUpdate, .genDelete]
        ++ [Event.call (.genTypes (genMethods E tin withCache)) (some e)]⟩)
    (hNew : ∀ e, (E.genNew (genTable E tin) withCache).2 = some e → P ⟨[], some e,
      callsOk [.genCacheKeys, .genImports, .genVars, .genInsert, .genFindOne, .genFindOneByField,
        .genUpdate, .genDelete, .genTypes (genMethods E tin withCache)]
        ++ [Event.call .genNew (some e)]⟩)
    (hLoad : ∀ e, P ⟨[], some e,
      callsOk [.genCacheKeys, .genImports, .genVars, .genInsert, .genFindOne, .genFindOneByField,
        .genUpdate, .genDelete, .genTypes (genMethods E tin withCache), .genNew]
        ++ [Event.call .LoadTemplate (some e)]⟩)
    (hExec : ∀ e, P ⟨[], some e,
      callsOk [.genCacheKeys, .genImports, .genVars, .genInsert, .genFindOne, .genFindOneByField,
        .genUpdate, .genDelete, .genTypes (genMethods E tin withCache), .genNew, .LoadTemplate]
        ++ [Event.call .Execute (some e)]⟩)
    (hOk : ∀ output, (E.genImports withCache tin.ContainsTime).2 = none →
      (E.genVars (genTable E tin) withCache).2 = none →
      (E.genInsert (genTable E tin) withCache).2.2 = none →
      (E.genFindOne (genTable E tin) withCache).2.2 = none →
      (E.genFindOneByField (genTable E tin) withCache).2 = none →
      (E.genUpdate (genTable E tin) withCache).2.2 = none →
      (E.genDelete (genTable E tin) withCache).2.2 = none →
      (E.genTypes (genTable E tin) (genMethods E tin withCache) withCache).2 = none →
      (E.genNew (genTable E tin) withCache).2 = none →
      P ⟨bufferString output, none,
      callsOk [.genCacheKeys, .genImports, .genVars, .genInsert, .genFindOne, .genFindOneByField,
        .genUpdate, .genDelete, .genTypes (genMethods E tin withCache), .genNew, .LoadTemplate,
        .Execute]⟩) :
    P (genModel E g tin withCache) := by
  rw [genModel_eq, if_neg hpk]
  rcases h1 : (E.genImports withCache tin.ContainsTime).2 with _ | e
  swap
  · rw [andThen_of_err _ _ _ _ h1]; exact hImports e h1
  rw [andThen_of_ok _ _ _ _ h1]
  rcases h2 : (E.genVars (genTable E tin) withCache).2 with _ | e
  swap
  · rw [andThen_of_err _ _ _ _ h2]; exact hVars e h2
  rw [andThen_of_ok _ _ _ _ h2]
  rcases h3 : (E.genInsert (genTable E tin) withCache).2.2 with _ | e
  swap
  · rw [andThen_of_err _ _ (_, some e) _ rfl]; exact hInsert e h3
  rw [andThen_of_ok _ _ (_, none) _ rfl]
  rcases h4 : (E.genFindOne (genTable E tin) withCache).2.2 with _ | e
  swap
  · rw [andThen_of_err _ _ (_, some e) _ rfl]; exact hFindOne e h4
  rw [andThen_of_ok _ _ (_, none) _ rfl]
  rcases h5 : (E.genFindOneByField (genTable E tin) withCache).2 with _ | e
  swap
  · rw [andThen_of_err _ _ _ _ h5]; exact hByField e h5
  rw [andThen_of_ok _ _ _ _ h5]
  rcases h6 : (E.genUpdate (genTable E tin) withCache).2.2 with _ | e
  swap
  · rw [andThen_of_err _ _ (_, some e) _ rfl]; exact hUpdate e h6
  rw [andThen_of_ok _ _ (_, none) _ rfl]
  rcases h7 : (E.genDelete (genTable E tin) withCache).2.2 with _ | e
  swap
  · rw [andThen_of_err _ _ (_, some e) _ rfl]; exact hDelete e h7
  rw [andThen_of_ok _ _ (_, none) _ rfl]
  rcases h8 : (E.genTypes (genTable E tin) (genMethods E tin withCache) withCache).2 with _ | e
  swap
  · rw [andThen_of_err _ _ _ _ h8]; exact hTypes e h8
  rw [andThen_of_ok _ _ _ _ h8]
  rcases h9 : (E.genNew (genTable E tin) withCache).2 with _ | e
  swap
  · rw [andThen_of_err _ _ _ _ h9]; exact hNew e h9
  rw [andThen_of_ok _ _ _ _ h9]
  simp only []
  refine executeModel_outcome E g _
    (fun r => P (if r.err ≠ none then ⟨[], r.err, _ ++ r.log⟩
      else ⟨bufferString r.val, none, _ ++ r.log⟩)) ?_ ?_ ?_
  · intro e; exact hLoad e
  · intro e; exact hExec e
  · intro output; exact hOk output h1 h2 h3 h4 h5 h6 h7 h8 h9

/-- Without a primary key `genModel` returns at once. -/
theorem genModel_of_no_key (E : Env) (g : gormGenerator) (tin : ParserTable) (withCache : Bool)
    (h : tin.PrimaryKey.Name.length = 0) :
    genModel E g tin withCache = ⟨[], some (missingPrimaryKey tin.Name), []⟩ := by
  rw [genModel_eq, if_pos h]

/-- An error of `genModel` comes with the empty output. -/
theorem genModel_err_val (E : Env) (g : gormGenerator) (tin : ParserTable)
    (withCache : Bool) (h : (genModel E g tin withCache).err ≠ none) :
    (genModel E g tin withCache).val = [] := by
  by_cases hpk : tin.PrimaryKey.Name.length = 0
  · rw [genModel_of_no_key E g tin withCache hpk]
  · revert h
    refine genModel_outcome E g tin withCache hpk
      (fun r => r.err ≠ none → r.val = []) ?_ ?_ ?_ ?_ ?_ ?_ ?_ ?_ ?_ ?_ ?_ ?_
    all_goals intros
    all_goals simp_all

/-- The log of `genModel` holds calls only. -/
theorem genModel_log_isGen (E : Env) (g : gormGenerator) (tin : ParserTable)
    (withCache : Bool) : ∀ ev ∈ (genModel E g tin withCache).log, ev.isGen = true := by
  by_cases hpk : tin.PrimaryKey.Name.length = 0
  · rw [genModel_of_no_key E g tin withCache hpk]
    simp
  · refine genModel_outcome E g tin withCache hpk
      (fun r => ∀ ev ∈ r.log, ev.isGen = true) ?_ ?_ ?_ ?_ ?_ ?_ ?_ ?_ ?_ ?_ ?_ ?_
    all_goals intros
    all_goals simp_all [callsOk, Event.isGen]

theorem executeModel_eq (E : Env) (g : gormGenerator) (code : gormCode) :
    executeModel E g code =
      if (E.LoadTemplate .modelTemplateFile).2 ≠ none then
        ⟨none, (E.LoadTemplate .modelTemplateFile).2,
          [Event.call .LoadTemplate (E.LoadTemplate .modelTemplateFile).2]⟩
      else if (E.Execute "model".toList (E.LoadTemplate .modelTemplateFile).1 true
          (templateData g code)).2 ≠ none then
        ⟨none, (E.Execute "model".toList (E.LoadTemplate .modelTemplateFile).1 true
            (templateData g code)).2,
          [Event.call .LoadTemplate (E.LoadTemplate .modelTemplateFile).2] ++
            [Event.call .Execute (E.Execute "model".toList
              (E.LoadTemplate .modelTemplateFile).1 true (templateData g code)).2]⟩
      else
        ⟨(E.Execute "model".toList (E.LoadTemplate .modelTemplateFile).1 true
            (templateData g code)).1, none,
          [Event.call .LoadTemplate (E.LoadTemplate .modelTemplateFile).2] ++
            [Event.call .Execute (E.Execute "model".toList
              (E.LoadTemplate .modelTemplateFile).1 true (templateData g code)).2]⟩ := by
  rfl

/-- What `genModel` returns on a table with a primary key, in terms of what
its callees return: the first error in call order, with the empty output and
the calls made up to there, or, when there is none, the executed template and
all the calls. -/
theorem genModel_stages (E : Env) (g : gormGenerator) (tin : ParserTable) (withCache : Bool)
    (hpk : tin.PrimaryKey.Name.length ≠ 0) :
    genModel E g tin withCache =
      ⟨if firstErr (genStages E g tin withCache) = none then
          bufferString (executed E g tin withCache).1 else [],
        firstErr (genStages E g tin withCache),
        (untilErr (genStages E g tin withCache)).map stageEvent⟩ := by
  have hcode : ∀ log : List Event,
      (if (executeModel E g (genCode E tin withCache)).err ≠ none then
        (⟨[], (executeModel E g (genCode E tin withCache)).err,
          log ++ (executeModel E g (genCode E tin withCache)).log⟩ : Ret GoString)
      else ⟨bufferString (executeModel E g (genCode E tin withCache)).val, none,
          log ++ (executeModel E g (genCode E tin withCache)).log⟩) =
      if (E.LoadTemplate .modelTemplateFile).2 ≠ none then
        ⟨[], (E.LoadTemplate .modelTemplateFile).2,
          log ++ [Event.call .LoadTemplate (E.LoadTemplate .modelTemplateFile).2]⟩
      else if (executed E g tin withCache).2 ≠ none then
        ⟨[], (executed E g tin withCache).2,
          log ++ [Event.call .LoadTemplate (E.LoadTemplate .modelTemplateFile).2,
            Event.call .Execute (executed E g tin withCache).2]⟩
      else
        ⟨bufferString (executed E g tin withCache).1, none,
          log ++ [Event.call .LoadTemplate (E.LoadTemplate .modelTemplateFile).2,
            Event.call .Execute (executed E g tin withCache).2]⟩ := by
    intro log
    rw [executeModel_eq]
    show _ = if (E.LoadTemplate .modelTemplateFile).2 ≠ none then _
      else if (E.Execute "model".toList (E.LoadTemplate .modelTemplateFile).1 true
          (templateData g (genCode E tin withCache))).2 ≠ none then _ else _
    split_ifs <;> simp_all [executed]
  rw [genModel_eq, if_neg hpk]
  unfold genStages
  rcases h1 : (E.genImports withCache tin.ContainsTime).2 with _ | e
  swap
  · rw [andThen_of_err _ _ _ _ h1]; simp [firstErr, untilErr, stageEvent]
  rw [andThen_of_ok _ _ _ _ h1]
  rcases h2 : (E.genVars (genTable E tin) withCache).2 with _ | e
  swap
  · rw [andThen_of_err _ _ _ _ h2]; simp [firstErr, untilErr, stageEvent]
  rw [andThen_of_ok _ _ _ _ h2]
  rcases h3 : (E.genInsert (genTable E tin) withCache).2.2 with _ | e
  swap
  · rw [andThen_of_err _ _ (_, some e) _ rfl]; simp [firstErr, untilErr, stageEvent]
  rw [andThen_of_ok _ _ (_, none) _ rfl]
  rcases h4 : (E.genFindOne (genTable E tin) withCache).2.2 with _ | e
  swap
  · rw [andThen_of_err _ _ (_, some e) _ rfl]; simp [firstErr, untilErr, stageEvent]
  rw [andThen_of_ok _ _ (_, none) _ rfl]
  rcases h5 : (E.genFindOneByField (genTable E tin) withCache).2 with _ | e
  swap
  · rw [andThen_of_err _ _ _ _ h5]; simp [firstErr, untilErr, stageEvent]
  rw [andThen_of_ok _ _ _ _ h5]
  rcases h6 : (E.genUpdate (genTable E tin) withCache).2.2 with _ | e
  swap
  · rw [andThen_of_err _ _ (_, some e) _ rfl]; simp [firstErr, untilErr, stageEvent]
  rw [andThen_of_ok _ _ (_, none) _ rfl]
  rcases h7 : (E.genDelete (genTable E tin) withCache).2.2 with _ | e
  swap
  · rw [andThen_of_err _ _ (_, some e) _ rfl]; simp [firstErr, untilErr, stageEvent]
  rw [andThen_of_ok _ _ (_, none) _ rfl]
  rcases h8 : (E.genTypes (genTable E tin) (genMethods E tin withCache) withCache).2 with _ | e
  swap
  · rw [andThen_of_err _ _ _ _ h8]; simp [firstErr, untilErr, stageEvent]
  rw [andThen_of_ok _ _ _ _ h8]
  rcases h9 : (E.genNew (genTable E tin) withCache).2 with _ | e
  swap
  · rw [andThen_of_err _ _ _ _ h9]; simp [firstErr, untilErr, stageEvent]
  rw [andThen_of_ok _ _ _ _ h9]
  simp only []
  refine (hcode _).trans ?_
  rcases hL : (E.LoadTemplate .modelTemplateFile).2 with _ | e
  swap
  · simp [firstErr, untilErr, stageEvent]
  rcases hX : (executed E g tin withCache).2 with _ | e
  · simp [firstErr, untilErr, stageEvent]
  · simp [firstErr, untilErr, stageEvent]

theorem firstErr_append_err (c : Call) (e : GoError) (post : List (Call × Option GoError)) :
    ∀ pre : List (Call × Option GoError), (∀ s ∈ pre, s.2 = none) →
      firstErr (pre ++ (c, some e) :: post) = some e ∧
      untilErr (pre ++ (c, some e) :: post) = pre ++ [(c, some e)]
  | [], _ => ⟨rfl, rfl⟩
  | (c', none) :: pre, h => by
    have ih := firstErr_append_err c e post pre (fun s hs => h s (List.mem_cons_of_mem _ hs))
    exact ⟨ih.1, by simp [untilErr, ih.2]⟩
  | (c', some e') :: pre, h => by
    have := h (c', some e') (by simp)
    simp at this

theorem firstErr_of_all_ok :
    ∀ stages : List (Call × Option GoError), (∀ s ∈ stages, s.2 = none) →
      firstErr stages = none ∧ untilErr stages = stages
  | [], _ => ⟨rfl, rfl⟩
  | (c, none) :: stages, h => by
    have ih := firstErr_of_all_ok stages (fun s hs => h s (List.mem_cons_of_mem _ hs))
    exact ⟨ih.1, by simp [untilErr, ih.2]⟩
  | (c, some e) :: stages, h => by
    have := h (c, some e) (by simp)
    simp at this

/-! ## The batch drivers: lemmas -/

theorem genFromDDLLoop_cons (E : Env) (g : gormGenerator) (withCache : Bool) (ddl : GoString)
    (ddlList : List GoString) (m : GoMap) :
    genFromDDLLoop E g withCache (ddl :: ddlList) m =
      if (E.Parse ddl).2 ≠ none then ⟨[], (E.Parse ddl).2, [Event.parse ddl (E.Parse ddl).2]⟩
      else if (genModel E g (E.Parse ddl).1 withCache).err ≠ none then
        ⟨[], (genModel E g (E.Parse ddl).1 withCache).err,
          [Event.parse ddl (E.Parse ddl).2] ++ (genModel E g (E.Parse ddl).1 withCache).log⟩
      else
        ⟨(genFromDDLLoop E g withCache ddlList
            (mapSet m (E.Parse ddl).1.Name (genModel E g (E.Parse ddl).1 withCache).val)).val,
          (genFromDDLLoop E g withCache ddlList
            (mapSet m (E.Parse ddl).1.Name (genModel E g (E.Parse ddl).1 withCache).val)).err,
          [Event.parse ddl (E.Parse ddl).2] ++ (genModel E g (E.Parse ddl).1 withCache).log ++
            (genFromDDLLoop E g withCache ddlList
              (mapSet m (E.Parse ddl).1.Name
                (genModel E g (E.Parse ddl).1 withCache).val)).log⟩ := by
  rfl

/-- The log of the loop of `genFromDDL` holds parser and generator calls only. -/
theorem genFromDDLLoop_log_isGen (E : Env) (g : gormGenerator) (withCache : Bool) :
    ∀ (ddlList : List GoString) (m : GoMap),
      ∀ ev ∈ (genFromDDLLoop E g withCache ddlList m).log, ev.isGen = true
  | [], m => by simp [genFromDDLLoop]
  | ddl :: ddlList, m => by
    have hg := genModel_log_isGen E g (E.Parse ddl).1 withCache
    have ih := genFromDDLLoop_log_isGen E g withCache ddlList
      (mapSet m (E.Parse ddl).1.Name (genModel E g (E.Parse ddl).1 withCache).val)
    rw [genFromDDLLoop_cons]
    intro ev hev
    split_ifs at hev
    · simp only [List.mem_singleton] at hev
      rw [hev]; rfl
    · simp only [List.mem_append, List.mem_singleton] at hev
      rcases hev with hev | hev
      · rw [hev]; rfl
      · exact hg ev hev
    · simp only [List.mem_append, List.mem_singleton] at hev
      rcases hev with (hev | hev) | hev
      · rw [hev]; rfl
      · exact hg ev hev
      · exact ih ev hev

/-- The loop of `genFromDDL` returns the error of the first statement, in the
order it visits them, whose table fails to generate, when the statements
before it parse and generate and this one parses. -/
theorem genFromDDLLoop_first_err (E : Env) (g : gormGenerator) (withCache : Bool)
    (ddl : GoString) (post : List GoString) (e : GoError) (hp : (E.Parse ddl).2 = none)
    (hg : (genModel E g (E.Parse ddl).1 withCache).err = some e) :
    ∀ (pre : List GoString) (m : GoMap),
      (∀ d ∈ pre, (E.Parse d).2 = none ∧ (genModel E g (E.Parse d).1 withCache).err = none) →
      (genFromDDLLoop E g withCache (pre ++ ddl :: post) m).err = some e
  | [], m, _ => by
    rw [List.nil_append, genFromDDLLoop_cons, if_neg (not_not.2 hp), if_pos (by simp [hg])]
    exact hg
  | d :: pre, m, h => by
    obtain ⟨hd, hgd⟩ := h d (by simp)
    rw [List.cons_append, genFromDDLLoop_cons, if_neg (not_not.2 hd), if_neg (not_not.2 hgd)]
    exact genFromDDLLoop_first_err E g withCache ddl post e hp hg pre _
      (fun x hx => h x (List.mem_cons_of_mem _ hx))

/-! ## The map of `genFromDDL`: lemmas -/

theorem find?_filter_of_imp {α : Type} (p q : α → Bool) (h : ∀ x, p x = true → q x = true) :
    ∀ l : List α, (l.filter q).find? p = l.find? p
  | [] => rfl
  | x :: l => by
    by_cases hq : q x = true
    · rw [List.filter_cons_of_pos hq]
      by_cases hp : p x = true
      · rw [List.find?_cons_of_pos _ hp, List.find?_cons_of_pos _ hp]
      · rw [List.find?_cons_of_neg _ hp, List.find?_cons_of_neg _ hp]
        exact find?_filter_of_imp p q h l
    · rw [List.filter_cons_of_neg hq]
      have hp : ¬ p x = true := fun hp => hq (h x hp)
      rw [List.find?_cons_of_neg _ hp]
      exact find?_filter_of_imp p q h l

theorem mapGet_mapSet (m : GoMap) (k v k' : GoString) :
    mapGet (mapSet m k v) k' = if k = k' then some v else mapGet m k' := by
  unfold mapGet mapSet
  by_cases hk : k = k'
  · simp [hk]
  · rw [if_neg hk, List.find?_cons_of_neg _ (by simpa using hk)]
    rw [find?_filter_of_imp]
    intro x hx
    have hx' : x.1 = k' := by simpa using hx
    simpa [hx'] using fun h : k' = k => hk h.symm

theorem mapSet_keys_nodup (m : GoMap) (k v : GoString) (h : (m.map Prod.fst).Nodup) :
    ((mapSet m k v).map Prod.fst).Nodup := by
  unfold mapSet
  rw [List.map_cons, List.nodup_cons]
  refine ⟨?_, (List.filter_sublist m).map Prod.fst |>.nodup h⟩
  intro hmem
  obtain ⟨x, hx, hxk⟩ := List.mem_map.1 hmem
  have := (List.mem_filter.1 hx).2
  simp [hxk] at this

theorem mem_keys_iff_mapGet (m : GoMap) (k : GoString) :
    k ∈ m.map Prod.fst ↔ (mapGet m k).isSome = true := by
  unfold mapGet
  rw [Option.isSome_map', List.find?_isSome]
  constructor
  · intro h
    obtain ⟨x, hx, hxk⟩ := List.mem_map.1 h
    exact ⟨x, hx, by simp [hxk]⟩
  · rintro ⟨x, hx, hxk⟩
    exact List.mem_map.2 ⟨x, hx, by simpa using hxk⟩

/-- The map built from statements `t`, in text order, the later ones entered
first: a name reads as the code of the first statement in `t` that has it. -/
theorem mapGet_foldr_mapSet (name code : GoString → GoString) (m : GoMap) (k : GoString) :
    ∀ t : List GoString,
      mapGet (t.foldr (fun ddl acc => mapSet acc (name ddl) (code ddl)) m) k =
        match t.find? (fun ddl => name ddl = k) with
        | some ddl => some (code ddl)
        | none => mapGet m k
  | [] => rfl
  | d :: t => by
    rw [List.foldr_cons, mapGet_mapSet]
    by_cases hd : name d = k
    · rw [if_pos hd, List.find?_cons_of_pos _ (by simpa using hd)]
    · rw [if_neg hd, List.find?_cons_of_neg _ (by simpa using hd)]
      exact mapGet_foldr_mapSet name code m k t

theorem foldr_mapSet_keys_nodup (name code : GoString → GoString) (m : GoMap)
    (h : (m.map Prod.fst).Nodup) :
    ∀ t : List GoString,
      ((t.foldr (fun ddl acc => mapSet acc (name ddl) (code ddl)) m).map Prod.fst).Nodup
  | [] => h
  | d :: t => by
    rw [List.foldr_cons]
    exact mapSet_keys_nodup _ _ _ (foldr_mapSet_keys_nodup name code m h t)

/-- When every statement parses and generates, the loop of `genFromDDL`
returns no error and the map with every statement entered in turn. -/
theorem genFromDDLLoop_ok (E : Env) (g : gormGenerator) (withCache : Bool) :
    ∀ (ddlList : List GoString) (m : GoMap),
      (∀ ddl ∈ ddlList,
        (E.Parse ddl).2 = none ∧ (genModel E g (E.Parse ddl).1 withCache).err = none) →
      (genFromDDLLoop E g withCache ddlList m).err = none ∧
      (genFromDDLLoop E g withCache ddlList m).val =
        ddlList.foldl (fun acc ddl =>
          mapSet acc (E.Parse ddl).1.Name (genModel E g (E.Parse ddl).1 withCache).val) m
  | [], m, _ => by simp [genFromDDLLoop]
  | ddl :: ddlList, m, h => by
    obtain ⟨hp, hg⟩ := h ddl (by simp)
    have ih := genFromDDLLoop_ok E g withCache ddlList
      (mapSet m (E.Parse ddl).1.Name (genModel E g (E.Parse ddl).1 withCache).val)
      (fun d hd => h d (List.mem_cons_of_mem _ hd))
    rw [genFromDDLLoop_cons]
    simp only [hp, hg, ne_eq, not_true_eq_false, if_false, List.foldl_cons]
    exact ih

/-- When a statement fails to parse or to generate, the loop of `genFromDDL`
returns an error. -/
theorem genFromDDLLoop_err (E : Env) (g : gormGenerator) (withCache : Bool) :
    ∀ (ddlList : List GoString) (m : GoMap),
      (∃ ddl ∈ ddlList,
        (E.Parse ddl).2 ≠ none ∨ (genModel E g (E.Parse ddl).1 withCache).err ≠ none) →
      (genFromDDLLoop E g withCache ddlList m).err ≠ none
  | [], m, h => by simp at h
  | ddl :: ddlList, m, h => by
    rw [genFromDDLLoop_cons]
    by_cases hp : (E.Parse ddl).2 = none
    · by_cases hg : (genModel E g (E.Parse ddl).1 withCache).err = none
      · simp only [hp, hg, ne_eq, not_true_eq_false, if_false]
        apply genFromDDLLoop_err E g withCache ddlList
        obtain ⟨d, hd, hfail⟩ := h
        rcases List.mem_cons.1 hd with rfl | hd
        · rcases hfail with hfail | hfail
          · exact absurd hp hfail
          · exact absurd hg hfail
        · exact ⟨d, hd, hfail⟩
      · simp [hp, hg]
    · simp [hp]

/-! ## The loop of `StartFromInformationSchema`: lemmas -/

theorem informationSchemaLoop_cons (E : Env) (g : gormGenerator) (withCache : Bool)
    (each : ModelTable)
    (tables : List ModelTable) (m : GoMap) :
    informationSchemaLoop E g withCache (each :: tables) m =
      if (E.ConvertDataType each).2 ≠ none then ⟨[], (E.ConvertDataType each).2,
          [Event.convert each.Table (E.ConvertDataType each).2]⟩
      else if (genModel E g (E.ConvertDataType each).1 withCache).err ≠ none then
        ⟨[], (genModel E g (E.ConvertDataType each).1 withCache).err,
          [Event.convert each.Table (E.ConvertDataType each).2] ++ (genModel E g
              (E.ConvertDataType each).1 withCache).log⟩
      else
        ⟨(informationSchemaLoop E g withCache tables
            (mapSet m (E.ConvertDataType each).1.Name (genModel E g
                (E.ConvertDataType each).1 withCache).val)).val,
          (informationSchemaLoop E g withCache tables
            (mapSet m (E.ConvertDataType each).1.Name (genModel E g
                (E.ConvertDataType each).1 withCache).val)).err,
          [Event.convert each.Table (E.ConvertDataType each).2] ++ (genModel E g
              (E.ConvertDataType each).1 withCache).log ++
            (informationSchemaLoop E g withCache tables
              (mapSet m (E.ConvertDataType each).1.Name
                (genModel E g (E.ConvertDataType each).1 withCache).val)).log⟩ := by
  rfl

/-- The log of the loop of `StartFromInformationSchema` holds converter and generator calls only. -/
theorem informationSchemaLoop_log_isGen (E : Env) (g : gormGenerator) (withCache : Bool) :
    ∀ (tables : List ModelTable) (m : GoMap),
      ∀ ev ∈ (informationSchemaLoop E g withCache tables m).log, ev.isGen = true
  | [], m => by simp [informationSchemaLoop]
  | each :: tables, m => by
    have hg := genModel_log_isGen E g (E.ConvertDataType each).1 withCache
    have ih := informationSchemaLoop_log_isGen E g withCache tables
      (mapSet m (E.ConvertDataType each).1.Name (genModel E g
          (E.ConvertDataType each).1 withCache).val)
    rw [informationSchemaLoop_cons]
    intro ev hev
    split_ifs at hev
    · simp only [List.mem_singleton] at hev
      rw [hev]; rfl
    · simp only [List.mem_append, List.mem_singleton] at hev
      rcases hev with hev | hev
      · rw [hev]; rfl
      · exact hg ev hev
    · simp only [List.mem_append, List.mem_singleton] at hev
      rcases hev with (hev | hev) | hev
      · rw [hev]; rfl
      · exact hg ev hev
      · exact ih ev hev

/-- When a table fails to convert or to generate, the loop of `StartFromInformationSchema`
returns an error. -/
theorem informationSchemaLoop_err (E : Env) (g : gormGenerator) (withCache : Bool) :
    ∀ (tables : List ModelTable) (m : GoMap),
      (∃ each ∈ tables,
        (E.ConvertDataType each).2 ≠ none ∨ (genModel E g
            (E.ConvertDataType each).1 withCache).err ≠ none) →
      (informationSchemaLoop E g withCache tables m).err ≠ none
  | [], m, h => by simp at h
  | each :: tables, m, h => by
    rw [informationSchemaLoop_cons]
    by_cases hp : (E.ConvertDataType each).2 = none
    · by_cases hg : (genModel E g (E.ConvertDataType each).1 withCache).err = none
      · simp only [hp, hg, ne_eq, not_true_eq_false, if_false]
        apply informationSchemaLoop_err E g withCache tables
        obtain ⟨d, hd, hfail⟩ := h
        rcases List.mem_cons.1 hd with rfl | hd
        · rcases hfail with hfail | hfail
          · exact absurd hp hfail
          · exact absurd hg hfail
        · exact ⟨d, hd, hfail⟩
      · simp [hp, hg]
    · simp [hp]


/-! ## The output materializer: lemmas -/

theorem WriteFile_frame (E : Env) (path data : GoString) (fs : FS) (p : GoString)
    (h : p ≠ path) : (WriteFile E path data fs).1 p = fs p := by
  unfold WriteFile
  rcases E.WriteFileFault path data fs with _ | ⟨err, _ | left⟩ <;> simp [FS.write, h]

theorem WriteFile_ok (E : Env) (path data : GoString) (fs : FS)
    (h : (WriteFile E path data fs).2 = none) : (WriteFile E path data fs).1 path = some data := by
  unfold WriteFile at h ⊢
  rcases hx : E.WriteFileFault path data fs with _ | ⟨err, _ | left⟩
  · simp [FS.write]
  · simp [hx] at h
  · simp [hx] at h

theorem createFileLoop_cons (E : Env) (dirAbs tableName code : GoString) (modelList : GoMap)
    (w : World) :
    createFileLoop E dirAbs ((tableName, code) :: modelList) w =
      if (E.FileNamingFormat w.g.NamingFormat (tableName ++ "_model".toList)).2 ≠ none then
        ⟨(E.FileNamingFormat w.g.NamingFormat (tableName ++ "_model".toList)).2, w, []⟩
      else if FileExists (tablePath E w.g.NamingFormat dirAbs tableName) w.fs = true then
        ⟨(createFileLoop E dirAbs modelList w).err, (createFileLoop E dirAbs modelList w).w,
          [skipWarning E w.g.NamingFormat tableName] ++ (createFileLoop E dirAbs modelList w).log⟩
      else if (WriteFile E (tablePath E w.g.NamingFormat dirAbs tableName) code w.fs).2 ≠ none then
        ⟨(WriteFile E (tablePath E w.g.NamingFormat dirAbs tableName) code w.fs).2,
          { w with fs := (WriteFile E
              (tablePath E w.g.NamingFormat dirAbs tableName) code w.fs).1 },
          [Event.writeFile (tablePath E w.g.NamingFormat dirAbs tableName) code
            (WriteFile E (tablePath E w.g.NamingFormat dirAbs tableName) code w.fs).2]⟩
      else
        ⟨(createFileLoop E dirAbs modelList { w with
            fs := (WriteFile E (tablePath E w.g.NamingFormat dirAbs tableName) code w.fs).1 }).err,
          (createFileLoop E dirAbs modelList { w with
            fs := (WriteFile E (tablePath E w.g.NamingFormat dirAbs tableName) code w.fs).1 }).w,
          [Event.writeFile (tablePath E w.g.NamingFormat dirAbs tableName) code
            (WriteFile E (tablePath E w.g.NamingFormat dirAbs tableName) code w.fs).2] ++
          (createFileLoop E dirAbs modelList { w with
            fs := (WriteFile E
                (tablePath E w.g.NamingFormat dirAbs tableName) code w.fs).1 }).log⟩ := by
  rfl

/-- The loop of `createFile` leaves the generator as it is. -/
theorem createFileLoop_g (E : Env) (dirAbs : GoString) :
    ∀ (modelList : GoMap) (w : World), (createFileLoop E dirAbs modelList w).w.g = w.g
  | [], w => rfl
  | (tableName, code) :: modelList, w => by
    rw [createFileLoop_cons]
    split_ifs
    · rfl
    · exact createFileLoop_g E dirAbs modelList w
    · rfl
    · exact createFileLoop_g E dirAbs modelList _

/-- The loop of `createFile` leaves every file that exists as it is. -/
theorem createFileLoop_frame (E : Env) (dirAbs p : GoString) :
    ∀ (modelList : GoMap) (w : World), (w.fs p).isSome = true →
      (createFileLoop E dirAbs modelList w).w.fs p = w.fs p
  | [], w, _ => rfl
  | (tableName, code) :: modelList, w, hp => by
    rw [createFileLoop_cons]
    split_ifs with h1 h2 h3
    · rfl
    · exact createFileLoop_frame E dirAbs p modelList w hp
    · have hne : p ≠ tablePath E w.g.NamingFormat dirAbs tableName := by
        rintro rfl
        exact h2 hp
      exact WriteFile_frame E _ code w.fs p hne
    · have hne : p ≠ tablePath E w.g.NamingFormat dirAbs tableName := by
        rintro rfl
        exact h2 hp
      have hw := WriteFile_frame E _ code w.fs p hne
      rw [createFileLoop_frame E dirAbs p modelList _ (by simpa [hw] using hp)]
      exact hw

/-- The loop of `createFile` removes no file. -/
theorem createFileLoop_keeps (E : Env) (dirAbs p : GoString) (modelList : GoMap) (w : World)
    (hp : (w.fs p).isSome = true) :
    ((createFileLoop E dirAbs modelList w).w.fs p).isSome = true := by
  rw [createFileLoop_frame E dirAbs p modelList w hp]
  exact hp

/-- The loop of `createFile` calls `ioutil.WriteFile` on no file that exists. -/
theorem createFileLoop_no_write (E : Env) (dirAbs p : GoString) :
    ∀ (modelList : GoMap) (w : World), (w.fs p).isSome = true →
      ∀ data err, Event.writeFile p data err ∉ (createFileLoop E dirAbs modelList w).log
  | [], w, _ => by simp [createFileLoop]
  | (tableName, code) :: modelList, w, hp => by
    intro data err
    rw [createFileLoop_cons]
    have hne : FileExists (tablePath E w.g.NamingFormat dirAbs tableName) w.fs = false →
        p ≠ tablePath E w.g.NamingFormat dirAbs tableName := by
      intro h2
      rintro rfl
      simp [FileExists, hp] at h2
    split_ifs with h1 h2 h3
    · simp
    · simp only [skipWarning, List.mem_append, List.mem_singleton, reduceCtorEq, false_or]
      exact createFileLoop_no_write E dirAbs p modelList w hp data err
    · have := hne (by simpa using h2)
      simp only [List.mem_singleton, Event.writeFile.injEq, not_and]
      intro h
      exact absurd h this
    · have hne' := hne (by simpa using h2)
      have hw := WriteFile_frame E _ code w.fs p hne'
      simp only [List.mem_append, List.mem_singleton, Event.writeFile.injEq, not_or, not_and]
      refine ⟨fun h => absurd h hne', ?_⟩
      exact createFileLoop_no_write E dirAbs p modelList _ (by simpa [hw] using hp) data err

/-- After the loop of `createFile` has run without an error, every table of
the list has a file name and a file. -/
theorem createFileLoop_ok (E : Env) (dirAbs : GoString) :
    ∀ (modelList : GoMap) (w : World), (createFileLoop E dirAbs modelList w).err = none →
      ∀ entry ∈ modelList,
        (E.FileNamingFormat w.g.NamingFormat (entry.1 ++ "_model".toList)).2 = none ∧
        ((createFileLoop E dirAbs modelList w).w.fs
          (tablePath E w.g.NamingFormat dirAbs entry.1)).isSome = true
  | [], w, _ => by simp
  | (tableName, code) :: modelList, w, herr => by
    rw [createFileLoop_cons] at herr ⊢
    intro entry hentry
    split_ifs at herr ⊢ with h1 h2 h3
    · exact absurd herr h1
    · rw [not_not] at h1
      rcases List.mem_cons.1 hentry with rfl | hentry
      · exact ⟨h1, createFileLoop_keeps E dirAbs _ modelList w h2⟩
      · exact createFileLoop_ok E dirAbs modelList w herr entry hentry
    · exact absurd herr h3
    · rw [not_not] at h1 h3
      rcases List.mem_cons.1 hentry with rfl | hentry
      · refine ⟨h1, createFileLoop_keeps E dirAbs _ modelList _ ?_⟩
        simp [WriteFile_ok E _ _ _ h3]
      · exact createFileLoop_ok E dirAbs modelList _ herr entry hentry

/-- When every table of the list has a file name and a file, the loop of
`createFile` skips them all: no error, the world as it was, one warning a
table. -/
theorem createFileLoop_all_skipped (E : Env) (dirAbs : GoString) :
    ∀ (modelList : GoMap) (w : World),
      (∀ entry ∈ modelList,
        (E.FileNamingFormat w.g.NamingFormat (entry.1 ++ "_model".toList)).2 = none ∧
        (w.fs (tablePath E w.g.NamingFormat dirAbs entry.1)).isSome = true) →
      createFileLoop E dirAbs modelList w =
        ⟨none, w, modelList.map fun entry => skipWarning E w.g.NamingFormat entry.1⟩
  | [], w, _ => rfl
  | (tableName, code) :: modelList, w, h => by
    obtain ⟨h1, h2⟩ := h (tableName, code) (by simp)
    rw [createFileLoop_cons, if_neg (not_not.2 h1), if_pos (by simpa [FileExists] using h2),
      createFileLoop_all_skipped E dirAbs modelList w
        (fun entry he => h entry (List.mem_cons_of_mem _ he))]
    rfl

/-- When the loop of `createFile` runs without an error, a table of the list
whose file exists beforehand gets its warning. -/
theorem createFileLoop_warns (E : Env) (dirAbs tableName : GoString) :
    ∀ (modelList : GoMap) (w : World), (createFileLoop E dirAbs modelList w).err = none →
      tableName ∈ modelList.map Prod.fst →
      (w.fs (tablePath E w.g.NamingFormat dirAbs tableName)).isSome = true →
      skipWarning E w.g.NamingFormat tableName ∈ (createFileLoop E dirAbs modelList w).log
  | [], w, _, hmem, _ => by simp at hmem
  | (t, code) :: modelList, w, herr, hmem, hp => by
    rw [createFileLoop_cons] at herr ⊢
    have hmem' : tableName = t ∨ tableName ∈ modelList.map Prod.fst := by simpa using hmem
    split_ifs at herr ⊢ with h1 h2 h3
    · exact absurd herr h1
    · rcases hmem' with rfl | hmem'
      · simp
      · exact List.mem_append_right _
          (createFileLoop_warns E dirAbs tableName modelList w herr hmem' hp)
    · exact absurd herr h3
    · rcases hmem' with rfl | hmem'
      · exact absurd (by simpa [FileExists] using hp) h2
      · refine List.mem_append_right _
          (createFileLoop_warns E dirAbs tableName modelList _ herr hmem' ?_)
        have hne : tablePath E w.g.NamingFormat dirAbs tableName
            ≠ tablePath E w.g.NamingFormat dirAbs t := by
          intro h
          rw [h] at hp
          exact h2 (by simpa [FileExists] using hp)
        simpa [WriteFile_frame E _ code w.fs _ hne] using hp

/-- The loop of `createFile` over a list in two parts: when the first part
runs without an error, the second part is run in the world the first has left. -/
theorem createFileLoop_append (E : Env) (dirAbs : GoString) (rest : GoMap) :
    ∀ (pre : GoMap) (w : World), (createFileLoop E dirAbs pre w).err = none →
      createFileLoop E dirAbs (pre ++ rest) w =
        ⟨(createFileLoop E dirAbs rest (createFileLoop E dirAbs pre w).w).err,
          (createFileLoop E dirAbs rest (createFileLoop E dirAbs pre w).w).w,
          (createFileLoop E dirAbs pre w).log ++
            (createFileLoop E dirAbs rest (createFileLoop E dirAbs pre w).w).log⟩
  | [], w, _ => by simp [createFileLoop]
  | (tableName, code) :: pre, w, h => by
    rw [createFileLoop_cons] at h
    rw [List.cons_append, createFileLoop_cons, createFileLoop_cons]
    split_ifs at h ⊢ with h1 h2 h3
    · exact absurd h h1
    · rw [createFileLoop_append E dirAbs rest pre w h]
      simp
    · exact absurd h h3
    · rw [createFileLoop_append E dirAbs rest pre _ h]
      simp

/-- A table whose file exists gets its warning as soon as the loop of
`createFile` reaches it, that is, when the tables before it in the list have
run without an error. -/
theorem createFileLoop_warns_reached (E : Env) (dirAbs tableName code : GoString)
    (pre post : GoMap) (w : World)
    (hname : (E.FileNamingFormat w.g.NamingFormat (tableName ++ "_model".toList)).2 = none)
    (hexists : (w.fs (tablePath E w.g.NamingFormat dirAbs tableName)).isSome = true)
    (hpre : (createFileLoop E dirAbs pre w).err = none) :
    skipWarning E w.g.NamingFormat tableName
      ∈ (createFileLoop E dirAbs (pre ++ (tableName, code) :: post) w).log := by
  have hg := createFileLoop_g E dirAbs pre w
  have hk := createFileLoop_keeps E dirAbs _ pre w hexists
  rw [createFileLoop_append E dirAbs _ pre w hpre, createFileLoop_cons, hg,
    if_neg (not_not.2 hname), if_pos (by simpa [FileExists] using hk)]
  simp

theorem createFile_eq (E : Env) (modelList : GoMap) (w : World) :
    createFile E modelList w =
      if (E.Abs w.g.dir).2 ≠ none then ⟨(E.Abs w.g.dir).2, w, [Event.createFile]⟩
      else if E.MkdirIfNotExist (E.Abs w.g.dir).1 w.fs ≠ none then
        ⟨E.MkdirIfNotExist (E.Abs w.g.dir).1 w.fs, inDir E w, [Event.createFile]⟩
      else createFileTail E (E.Abs w.g.dir).1
        (createFileLoop E (E.Abs w.g.dir).1 modelList (inDir E w)) := by
  rfl

/-- What follows the loop touches no path but that of the shared vars file. -/
theorem createFileTail_fs (E : Env) (dirAbs : GoString) (loop : Run) (p : GoString)
    (hp : p ≠ varsPath E loop.w.g.NamingFormat dirAbs) :
    (createFileTail E dirAbs loop).w.fs p = loop.w.fs p := by
  unfold createFileTail
  generalize E.SaveTo _ _ _ _ _ _ = saved
  rcases saved with ⟨_ | data, err⟩ <;> dsimp only <;> split_ifs <;> simp [FS.write, hp]

/-- What follows the loop removes no file. -/
theorem createFileTail_keeps (E : Env) (dirAbs : GoString) (loop : Run) (p : GoString)
    (hp : (loop.w.fs p).isSome = true) :
    ((createFileTail E dirAbs loop).w.fs p).isSome = true := by
  unfold createFileTail
  generalize E.SaveTo _ _ _ _ _ _ = saved
  rcases saved with ⟨_ | data, err⟩ <;> dsimp only <;> split_ifs <;>
    first
      | exact hp
      | (simp only [FS.write]
         split_ifs <;> first | rfl | exact hp)

/-- What follows the loop runs without an error only if the loop did. -/
theorem createFileTail_err (E : Env) (dirAbs : GoString) (loop : Run)
    (h : (createFileTail E dirAbs loop).err = none) : loop.err = none := by
  unfold createFileTail at h
  by_contra hne
  rw [if_pos hne] at h
  exact hne h

/-- The log of `createFile` past its loop: the entry, the log of the loop,
and then neither a file write nor a warning nor a call. -/
theorem createFileTail_log (E : Env) (dirAbs : GoString) (loop : Run) :
    ∃ rest, (createFileTail E dirAbs loop).log = [Event.createFile] ++ loop.log ++ rest ∧
      ∀ ev ∈ rest, (∃ path err, ev = Event.saveTo path err) ∨ ∃ msg, ev = Event.success msg := by
  unfold createFileTail
  generalize E.SaveTo _ _ _ _ _ _ = saved
  dsimp only
  split_ifs
  · exact ⟨[], by simp, by simp⟩
  · exact ⟨[], by simp, by simp⟩
  · exact ⟨[], by simp, by simp⟩
  · exact ⟨[Event.saveTo (varsPath E loop.w.g.NamingFormat dirAbs) saved.2], by simp, by simp⟩
  · exact ⟨[Event.saveTo (varsPath E loop.w.g.NamingFormat dirAbs) saved.2,
      Event.success "Done.".toList], by simp, by simp⟩

/-- Outside the path of the shared vars file, `createFile` leaves the file
system as it was or as its loop has left it. -/
theorem createFile_fs (E : Env) (modelList : GoMap) (w : World) (p : GoString)
    (hp : p ≠ varsPath E w.g.NamingFormat (E.Abs w.g.dir).1) :
    (createFile E modelList w).w.fs p = w.fs p ∨
    (createFile E modelList w).w.fs p =
      (createFileLoop E (E.Abs w.g.dir).1 modelList (inDir E w)).w.fs p := by
  have hg := createFileLoop_g E (E.Abs w.g.dir).1 modelList (inDir E w)
  rw [createFile_eq]
  split_ifs
  · exact Or.inl rfl
  · exact Or.inl rfl
  · refine Or.inr (createFileTail_fs E _ _ p ?_)
    rw [hg]
    exact hp

/-- The calls of `ioutil.WriteFile` in the log of `createFile` are those of its loop. -/
theorem createFile_writes (E : Env) (modelList : GoMap) (w : World) (path data : GoString)
    (err : Option GoError) (h : Event.writeFile path data err ∈ (createFile E modelList w).log) :
    Event.writeFile path data err ∈
      (createFileLoop E (E.Abs w.g.dir).1 modelList (inDir E w)).log := by
  rw [createFile_eq] at h
  split_ifs at h
  · simp at h
  · simp at h
  · obtain ⟨rest, hlog, hrest⟩ := createFileTail_log E (E.Abs w.g.dir).1
      (createFileLoop E (E.Abs w.g.dir).1 modelList (inDir E w))
    rw [hlog] at h
    simp only [List.mem_append, List.mem_singleton, reduceCtorEq, false_or] at h
    rcases h with h | h
    · exact h
    · rcases hrest _ h with ⟨_, _, h'⟩ | ⟨_, h'⟩ <;> cases h'

/-- What a run of `createFile` without an error tells: the directory was
resolved and made, the loop ran without an error, and the files the loop left
are still there. -/
theorem createFile_ok (E : Env) (modelList : GoMap) (w : World)
    (h : (createFile E modelList w).err = none) :
    (E.Abs w.g.dir).2 = none ∧ E.MkdirIfNotExist (E.Abs w.g.dir).1 w.fs = none ∧
    (createFileLoop E (E.Abs w.g.dir).1 modelList (inDir E w)).err = none ∧
    ∀ p, ((createFileLoop E (E.Abs w.g.dir).1 modelList (inDir E w)).w.fs p).isSome = true →
      ((createFile E modelList w).w.fs p).isSome = true := by
  rw [createFile_eq] at h ⊢
  split_ifs at h ⊢ with h1 h2
  · exact absurd h h1
  · exact absurd h h2
  · exact ⟨not_not.1 h1, not_not.1 h2, createFileTail_err E _ _ h,
      fun p hp => createFileTail_keeps E _ _ p hp⟩

/-- Once the directory is resolved and made, the log of the loop is part of
the log of `createFile`. -/
theorem createFile_log_of_loop (E : Env) (modelList : GoMap) (w : World)
    (h1 : (E.Abs w.g.dir).2 = none) (h2 : E.MkdirIfNotExist (E.Abs w.g.dir).1 w.fs = none) :
    ∀ ev ∈ (createFileLoop E (E.Abs w.g.dir).1 modelList (inDir E w)).log,
      ev ∈ (createFile E modelList w).log := by
  intro ev hev
  rw [createFile_eq, if_neg (not_not.2 h1), if_neg (not_not.2 h2)]
  obtain ⟨rest, hlog, -⟩ := createFileTail_log E (E.Abs w.g.dir).1
    (createFileLoop E (E.Abs w.g.dir).1 modelList (inDir E w))
  rw [hlog]
  simp [hev]
/-! ## The assembler: claims -/

/-- C4: for every table whose primary key name is empty, and for either value
of the cache flag, `genModel` returns the empty output and the error
`table <name>: missing primary key`, and its log of calls is empty: neither
the cache-key derivation nor any fragment generator has been invoked. -/
theorem genModel_missing_primary_key (E : Env) (g : gormGenerator) (tin : ParserTable)
    (withCache : Bool) (h : tin.PrimaryKey.Name = []) :
    genModel E g tin withCache =
      ⟨[], some ⟨"table ".toList ++ tin.Name ++ ": missing primary key".toList⟩, []⟩ := by
  rw [genModel_of_no_key E g tin withCache (by simp [h])]
  rfl

/-- C4 at the example table `b`, with the cache flag set and cleared. -/
theorem genModel_missing_primary_key_witness :
    demoTableNoKey.PrimaryKey.Name = [] ∧
      genModel demoEnv demoGen demoTableNoKey true =
        ⟨[], some ⟨"table b: missing primary key".toList⟩, []⟩ ∧
      genModel demoEnv demoGen demoTableNoKey false =
        ⟨[], some ⟨"table b: missing primary key".toList⟩, []⟩ :=
  ⟨rfl, genModel_missing_primary_key demoEnv demoGen demoTableNoKey true rfl,
    genModel_missing_primary_key demoEnv demoGen demoTableNoKey false rfl⟩

/-- C8: for every table with a non-empty primary key, the listing `genModel`
passes to `genTypes` is `strings.Join` over `TrimStringSlice` of the
signatures returned by the insert, find-one, find-by-unique-field, update and
delete generators, in that order, with the separator `util.NL`. With that
`listing`: every call of `genTypes` in the log carries it (with
`TrimStringSlice` dropping the empty entries and `NL` the newline, it is the
non-blank signatures joined by newlines) and comes right after the five
generators have returned without an error; the call is made whenever they and
the two generators before them return no error; the error `genTypes` returns
for `listing` is then what `genModel` returns; the types fragment of the
executed template is what `genTypes` returns for `listing`; and `genModel`
consults `genTypes` at no other argument: replacing `genTypes` by a function
that agrees with it at `listing` changes nothing. -/
theorem genModel_types_after_methods (E : Env) (g : gormGenerator) (tin : ParserTable)
    (withCache : Bool) (hpk : tin.PrimaryKey.Name ≠ []) (listing : GoString)
    (hlisting : listing = stringsJoin (E.TrimStringSlice
      [(E.genInsert (genTable E tin) withCache).2.1,
       (E.genFindOne (genTable E tin) withCache).2.1,
       (E.genFindOneByField (genTable E tin) withCache).1.findOneInterfaceMethod,
       (E.genUpdate (genTable E tin) withCache).2.1,
       (E.genDelete (genTable E tin) withCache).2.1]) E.NL) :
    (∀ methods err, Event.call (.genTypes methods) err ∈ (genModel E g tin withCache).log →
      methods = listing ∧
      ((∀ list, E.TrimStringSlice list = list.filter (fun item => item ≠ [])) →
        E.NL = ['\n'] →
        methods = ['\n'].intercalate (List.filter (fun item => item ≠ [])
          [(E.genInsert (genTable E tin) withCache).2.1,
           (E.genFindOne (genTable E tin) withCache).2.1,
           (E.genFindOneByField (genTable E tin) withCache).1.findOneInterfaceMethod,
           (E.genUpdate (genTable E tin) withCache).2.1,
           (E.genDelete (genTable E tin) withCache).2.1])) ∧
      ∃ pre post, (genModel E g tin withCache).log =
        pre ++ (callsOk [.genInsert, .genFindOne, .genFindOneByField, .genUpdate, .genDelete]
          ++ [Event.call (.genTypes methods) err]) ++ post) ∧
    ((E.genImports withCache tin.ContainsTime).2 = none →
      (E.genVars (genTable E tin) withCache).2 = none →
      (E.genInsert (genTable E tin) withCache).2.2 = none →
      (E.genFindOne (genTable E tin) withCache).2.2 = none →
      (E.genFindOneByField (genTable E tin) withCache).2 = none →
      (E.genUpdate (genTable E tin) withCache).2.2 = none →
      (E.genDelete (genTable E tin) withCache).2.2 = none →
      (∃ methods err, Event.call (.genTypes methods) err ∈ (genModel E g tin withCache).log) ∧
      ∀ e, (E.genTypes (genTable E tin) listing withCache).2 = some e →
        genModel E g tin withCache = ⟨[], some e,
          callsOk [.genCacheKeys, .genImports, .genVars, .genInsert, .genFindOne,
            .genFindOneByField, .genUpdate, .genDelete]
            ++ [Event.call (.genTypes listing) (some e)]⟩) ∧
    ((∀ s ∈ genStages E g tin withCache, s.2 = none) →
      (genModel E g tin withCache).err = none ∧
      (genModel E g tin withCache).val =
        bufferString (E.Execute "model".toList (E.LoadTemplate .modelTemplateFile).1 true
          (templateData g { genCode E tin withCache with
            typesCode := (E.genTypes (genTable E tin) listing withCache).1 })).1) ∧
    (∀ genTypes' : Table → GoString → Bool → GoString × Option GoError,
      genTypes' (genTable E tin) listing withCache
        = E.genTypes (genTable E tin) listing withCache →
      genModel { E with genTypes := genTypes' } g tin withCache = genModel E g tin withCache) := by
  have hpk' : tin.PrimaryKey.Name.length ≠ 0 := by simpa using hpk
  have hl : listing = genMethods E tin withCache := hlisting
  subst hl
  have hshape : ∀ methods err,
      Event.call (.genTypes methods) err ∈ (genModel E g tin withCache).log →
      methods = genMethods E tin withCache ∧
      ∃ pre post, (genModel E g tin withCache).log =
        pre ++ (callsOk [.genInsert, .genFindOne, .genFindOneByField, .genUpdate, .genDelete]
          ++ [Event.call (.genTypes methods) err]) ++ post := by
    intro methods err
    apply genModel_outcome E g tin withCache hpk'
      (fun r => Event.call (.genTypes methods) err ∈ r.log →
        methods = genMethods E tin withCache ∧
        ∃ pre post, r.log =
          pre ++ (callsOk [.genInsert, .genFindOne, .genFindOneByField, .genUpdate, .genDelete]
            ++ [Event.call (.genTypes methods) err]) ++ post)
    case hTypes =>
      intro e _ hmem
      have hm : methods = genMethods E tin withCache ∧ err = some e := by
        simpa [callsOk] using hmem
      obtain ⟨rfl, rfl⟩ := hm
      exact ⟨rfl, callsOk [.genCacheKeys, .genImports, .genVars], [], by simp [callsOk]⟩
    case hNew =>
      intro e _ hmem
      have hm : methods = genMethods E tin withCache ∧ err = none := by
        simpa [callsOk] using hmem
      obtain ⟨rfl, rfl⟩ := hm
      exact ⟨rfl, callsOk [.genCacheKeys, .genImports, .genVars],
        [Event.call .genNew (some e)], by simp [callsOk]⟩
    case hLoad =>
      intro e hmem
      have hm : methods = genMethods E tin withCache ∧ err = none := by
        simpa [callsOk] using hmem
      obtain ⟨rfl, rfl⟩ := hm
      exact ⟨rfl, callsOk [.genCacheKeys, .genImports, .genVars],
        [Event.call .genNew none, Event.call .LoadTemplate (some e)], by simp [callsOk]⟩
    case hExec =>
      intro e hmem
      have hm : methods = genMethods E tin withCache ∧ err = none := by
        simpa [callsOk] using hmem
      obtain ⟨rfl, rfl⟩ := hm
      exact ⟨rfl, callsOk [.genCacheKeys, .genImports, .genVars],
        [Event.call .genNew none, Event.call .LoadTemplate none, Event.call .Execute (some e)],
        by simp [callsOk]⟩
    case hOk =>
      intro output _ _ _ _ _ _ _ _ _ hmem
      have hm : methods = genMethods E tin withCache ∧ err = none := by
        simpa [callsOk] using hmem
      obtain ⟨rfl, rfl⟩ := hm
      exact ⟨rfl, callsOk [.genCacheKeys, .genImports, .genVars],
        callsOk [.genNew, .LoadTemplate, .Execute], by simp [callsOk]⟩
    all_goals
      intro e _ hmem
      simp [callsOk] at hmem
  refine ⟨fun methods err hmem => ?_, ?_, ?_, ?_⟩
  · obtain ⟨hm, hlog⟩ := hshape methods err hmem
    refine ⟨hm, fun hTrim hNL => ?_, hlog⟩
    rw [hm, genMethods, stringsJoin, hTrim, hNL]
  · intro h1 h2 h3 h4 h5 h6 h7
    constructor
    · apply genModel_outcome E g tin withCache hpk'
        (fun r => ∃ methods err, Event.call (.genTypes methods) err ∈ r.log)
      case hImports => intro e h; rw [h1] at h; cases h
      case hVars => intro e h; rw [h2] at h; cases h
      case hInsert => intro e h; rw [h3] at h; cases h
      case hFindOne => intro e h; rw [h4] at h; cases h
      case hByField => intro e h; rw [h5] at h; cases h
      case hUpdate => intro e h; rw [h6] at h; cases h
      case hDelete => intro e h; rw [h7] at h; cases h
      case hTypes => intro e _; exact ⟨genMethods E tin withCache, some e, by simp [callsOk]⟩
      case hNew => intro e _; exact ⟨genMethods E tin withCache, none, by simp [callsOk]⟩
      case hLoad => intro e; exact ⟨genMethods E tin withCache, none, by simp [callsOk]⟩
      case hExec => intro e; exact ⟨genMethods E tin withCache, none, by simp [callsOk]⟩
      case hOk =>
        intro output _ _ _ _ _ _ _ _ _
        exact ⟨genMethods E tin withCache, none, by simp [callsOk]⟩
    · intro e he
      rw [genModel_stages E g tin withCache hpk']
      simp [genStages, firstErr, untilErr, stageEvent, callsOk, h1, h2, h3, h4, h5, h6, h7, he]
  · intro hall
    have hok := firstErr_of_all_ok _ hall
    rw [genModel_stages E g tin withCache hpk', hok.1]
    exact ⟨rfl, rfl⟩
  · intro genTypes' hagree
    have ht : genTable { E with genTypes := genTypes' } tin = genTable E tin := rfl
    have hm : genMethods { E with genTypes := genTypes' } tin withCache
        = genMethods E tin withCache := rfl
    have hc : genCode { E with genTypes := genTypes' } tin withCache
        = genCode E tin withCache := by
      unfold genCode
      rw [ht, hm]
      show ({ typesCode := (genTypes' (genTable E tin) (genMethods E tin withCache)
        withCache).1, .. } : gormCode) = _
      rw [hagree]
    have hx : executed { E with genTypes := genTypes' } g tin withCache
        = executed E g tin withCache := by
      unfold executed
      rw [hc]
    have hs : genStages { E with genTypes := genTypes' } g tin withCache
        = genStages E g tin withCache := by
      unfold genStages
      rw [ht, hm, hx]
      show [_, _, _, _, _, _, _, _, (Call.genTypes (genMethods E tin withCache),
        (genTypes' (genTable E tin) (genMethods E tin withCache) withCache).2), _, _, _] = _
      rw [hagree]
    rw [genModel_stages _ g tin withCache hpk', genModel_stages E g tin withCache hpk', hs, hx]

/-- C8 at the example table `a`: the find-by-unique-field generator returns a
blank signature, and the listing `genTypes` gets is the other four, in order,
one a line; the types fragment it returns for that listing is in the output. -/
theorem genModel_types_after_methods_witness :
    (demoTable.PrimaryKey.Name ≠ [] ∧
      "Insert()\nFindOne()\nUpdate()\nDelete()".toList = stringsJoin (demoEnv.TrimStringSlice
        [(demoEnv.genInsert (genTable demoEnv demoTable) false).2.1,
         (demoEnv.genFindOne (genTable demoEnv demoTable) false).2.1,
         (demoEnv.genFindOneByField (genTable demoEnv demoTable) false).1.findOneInterfaceMethod,
         (demoEnv.genUpdate (genTable demoEnv demoTable) false).2.1,
         (demoEnv.genDelete (genTable demoEnv demoTable) false).2.1]) demoEnv.NL) ∧
      (demoEnv.genFindOneByField (genTable demoEnv demoTable) false).1.findOneInterfaceMethod
        = [] ∧
      (demoEnv.genTypes (genTable demoEnv demoTable)
          "Insert()\nFindOne()\nUpdate()\nDelete()".toList false).1
        = "cache:a:id|Insert()\nFindOne()\nUpdate()\nDelete()".toList ∧
      (genModel demoEnv demoGen demoTable false).val
        = "m|cache:a:id|Insert()\nFindOne()\nUpdate()\nDelete()".toList ∧
      ((genModel demoEnv demoGen demoTable false).err = none ∧
        (genModel demoEnv demoGen demoTable false).val =
          bufferString (demoEnv.Execute "model".toList
            (demoEnv.LoadTemplate .modelTemplateFile).1 true
            (templateData demoGen { genCode demoEnv demoTable false with
              typesCode := (demoEnv.genTypes (genTable demoEnv demoTable)
                "Insert()\nFindOne()\nUpdate()\nDelete()".toList false).1 })).1) :=
  ⟨⟨by decide, by decide⟩, by decide, by decide, by decide,
    (genModel_types_after_methods demoEnv demoGen demoTable false (by decide)
      "Insert()\nFindOne()\nUpdate()\nDelete()".toList (by decide)).2.2.1 (by decide)⟩

/-- C9: fail fast. On every table with a non-empty primary key, with the
calls of `genModel` listed in order together with the errors their callees
return (imports, vars, insert, find-one, find-by-unique-field, update,
delete, types, new, then the loading and the execution of the template; the
list is spelled out first): when
one of them returns an error and those before it return none, `genModel`
returns that error with the empty output, having made the calls up to that
one; when none returns an error, `genModel` returns the executed template and
no error; any error of `genModel` comes with the empty output. When the table
of a statement fails to generate in `StartFromDDL`, the statements visited
before it having parsed and generated, `StartFromDDL` returns that error,
leaves the generator and the file system as they were, and has neither
entered `createFile` nor written a file. -/
theorem genModel_fail_fast (E : Env) (g : gormGenerator) (tin : ParserTable)
    (withCache : Bool) (hpk : tin.PrimaryKey.Name ≠ []) :
    genStages E g tin withCache =
      [(.genCacheKeys, none),
       (.genImports, (E.genImports withCache tin.ContainsTime).2),
       (.genVars, (E.genVars (genTable E tin) withCache).2),
       (.genInsert, (E.genInsert (genTable E tin) withCache).2.2),
       (.genFindOne, (E.genFindOne (genTable E tin) withCache).2.2),
       (.genFindOneByField, (E.genFindOneByField (genTable E tin) withCache).2),
       (.genUpdate, (E.genUpdate (genTable E tin) withCache).2.2),
       (.genDelete, (E.genDelete (genTable E tin) withCache).2.2),
       (.genTypes (genMethods E tin withCache),
         (E.genTypes (genTable E tin) (genMethods E tin withCache) withCache).2),
       (.genNew, (E.genNew (genTable E tin) withCache).2),
       (.LoadTemplate, (E.LoadTemplate .modelTemplateFile).2),
       (.Execute, (E.Execute "model".toList (E.LoadTemplate .modelTemplateFile).1 true
         (templateData g (genCode E tin withCache))).2)] ∧
    (∀ pre c e post, genStages E g tin withCache = pre ++ (c, some e) :: post →
      (∀ s ∈ pre, s.2 = none) →
      genModel E g tin withCache = ⟨[], some e, (pre ++ [(c, some e)]).map stageEvent⟩) ∧
    ((∀ s ∈ genStages E g tin withCache, s.2 = none) →
      genModel E g tin withCache =
        ⟨bufferString (E.Execute "model".toList (E.LoadTemplate .modelTemplateFile).1 true
            (templateData g (genCode E tin withCache))).1, none,
          (genStages E g tin withCache).map stageEvent⟩) ∧
    ((genModel E g tin withCache).err ≠ none → (genModel E g tin withCache).val = []) ∧
    (∀ source w pre ddl post e, BoundaryMatches source.length (E.reg source) →
      (segmentsAt source (matchStarts (E.reg source))).reverse = pre ++ ddl :: post →
      (∀ d ∈ pre, (E.Parse d).2 = none ∧ (genModel E w.g (E.Parse d).1 withCache).err = none) →
      (E.Parse ddl).2 = none → (genModel E w.g (E.Parse ddl).1 withCache).err = some e →
      ∃ r, StartFromDDL E source withCache w = some r ∧ r.err = some e ∧ r.w = w ∧
        Event.createFile ∉ r.log ∧ ∀ path data err, Event.writeFile path data err ∉ r.log) := by
  have hpk' : tin.PrimaryKey.Name.length ≠ 0 := by simpa using hpk
  refine ⟨rfl, ?_, ?_, genModel_err_val E g tin withCache, ?_⟩
  · intro pre c e post hst hpre
    have h := firstErr_append_err c e post pre hpre
    rw [genModel_stages E g tin withCache hpk', hst, h.1, h.2]
    rfl
  · intro hall
    have h := firstErr_of_all_ok _ hall
    rw [genModel_stages E g tin withCache hpk', h.1, h.2]
    rfl
  · intro source w pre ddl post e hm hsegs hpre hp hg
    have hsplit := splitLoop_eq (E.reg source) source [] hm
    have herr := genFromDDLLoop_first_err E w.g withCache ddl post e hp hg pre [] hpre
    have hgen := genFromDDLLoop_log_isGen E w.g withCache (pre ++ ddl :: post) []
    refine ⟨⟨(genFromDDLLoop E w.g withCache (pre ++ ddl :: post) []).err, w,
      (genFromDDLLoop E w.g withCache (pre ++ ddl :: post) []).log⟩, ?_, herr, rfl, ?_, ?_⟩
    · simp only [StartFromDDL, genFromDDL, split]
      rw [hsplit]
      simp only [List.nil_append]
      rw [hsegs, if_pos (by rw [herr]; simp)]
    · intro hc
      have := hgen _ hc
      simp [Event.isGen] at this
    · intro path data err hc
      have := hgen _ hc
      simp [Event.isGen] at this

/-- C9 at the example table `bad`, whose delete fragment fails after seven
calls without an error: `genModel` returns that error with the empty output
and the log of those eight calls; `StartFromDDL` on the batch of `bad` and `a`
visits `a` first, which generates, then `bad`, returns the error and writes
nothing, not even the file of table `a`. -/
theorem genModel_fail_fast_witness :
    (demoTableBad.PrimaryKey.Name ≠ [] ∧
      genStages demoEnv demoGen demoTableBad false =
        demoBadBefore ++ (.genDelete, some ⟨"delete: bad template".toList⟩) :: demoBadAfter ∧
      ∀ s ∈ demoBadBefore, s.2 = none) ∧
    genModel demoEnv demoGen demoTableBad false =
      ⟨[], some ⟨"delete: bad template".toList⟩,
        (demoBadBefore ++ [(Call.genDelete, some (GoError.mk "delete: bad template".toList))]).map
          stageEvent⟩ ∧
    (StartFromDDL demoEnv demoBatchBad false demoWorld).map
        (fun r => (r.err, r.w.fs "/m/amodel.go".toList))
      = some (some ⟨"delete: bad template".toList⟩, none) :=
  ⟨⟨by decide, by decide, by decide⟩,
    (genModel_fail_fast demoEnv demoGen demoTableBad false (by decide)).2.1 demoBadBefore
      .genDelete ⟨"delete: bad template".toList⟩ demoBadAfter (by decide) (by decide),
    by decide⟩

/-! ## The batch drivers: claims -/

/-- C10: on every source in which all statements parse and generate, the
map `genFromDDL` returns has one entry for each distinct table name and no
other, it comes with no error, and the code kept under a name is the code
generated from the first statement in the text that defines that name. -/
theorem genFromDDL_first_statement_wins (E : Env) (g : gormGenerator) (source : GoString)
    (withCache : Bool) (hm : BoundaryMatches source.length (E.reg source))
    (hok : ∀ ddl ∈ segmentsAt source (matchStarts (E.reg source)),
      (E.Parse ddl).2 = none ∧ (genModel E g (E.Parse ddl).1 withCache).err = none) :
    ∃ r, genFromDDL E g source withCache = some r ∧ r.err = none ∧
      (r.val.map Prod.fst).Nodup ∧
      (∀ name, name ∈ r.val.map Prod.fst ↔
        ∃ ddl ∈ segmentsAt source (matchStarts (E.reg source)), (E.Parse ddl).1.Name = name) ∧
      ∀ name, mapGet r.val name =
        ((segmentsAt source (matchStarts (E.reg source))).find?
          (fun ddl => (E.Parse ddl).1.Name = name)).map
          (fun ddl => (genModel E g (E.Parse ddl).1 withCache).val) := by
  have hsplit := splitLoop_eq (E.reg source) source [] hm
  have hloop := genFromDDLLoop_ok E g withCache
    (segmentsAt source (matchStarts (E.reg source))).reverse []
    (fun ddl hd => hok ddl (List.mem_reverse.1 hd))
  rw [List.foldl_reverse] at hloop
  have hget : ∀ name,
      mapGet (genFromDDLLoop E g withCache
          (segmentsAt source (matchStarts (E.reg source))).reverse []).val name =
        ((segmentsAt source (matchStarts (E.reg source))).find?
          (fun ddl => (E.Parse ddl).1.Name = name)).map
          (fun ddl => (genModel E g (E.Parse ddl).1 withCache).val) := by
    intro name
    rw [hloop.2, mapGet_foldr_mapSet (fun ddl => (E.Parse ddl).1.Name)
      (fun ddl => (genModel E g (E.Parse ddl).1 withCache).val)]
    cases (segmentsAt source (matchStarts (E.reg source))).find?
      (fun ddl => (E.Parse ddl).1.Name = name) <;> rfl
  refine ⟨genFromDDLLoop E g withCache
    (segmentsAt source (matchStarts (E.reg source))).reverse [], ?_, hloop.1, ?_, ?_, hget⟩
  · simp only [genFromDDL, split]
    rw [hsplit]
    rfl
  · rw [hloop.2]
    exact foldr_mapSet_keys_nodup _ _ [] List.nodup_nil _
  · intro name
    rw [mem_keys_iff_mapGet, hget, Option.isSome_map', List.find?_isSome]
    simp

/-- C10 at a script that defines table `a` twice, with primary key `id` and
then with primary key `k`: one entry, no error, and the code is the one of the
first statement (its cache key is `cache:a:id`). -/
theorem genFromDDL_first_statement_wins_witness :
    (BoundaryMatches demoScriptTwice.length (demoEnv.reg demoScriptTwice) ∧
      ∀ ddl ∈ segmentsAt demoScriptTwice (matchStarts (demoEnv.reg demoScriptTwice)),
        (demoEnv.Parse ddl).2 = none ∧
          (genModel demoEnv demoGen (demoEnv.Parse ddl).1 false).err = none) ∧
    (genFromDDL demoEnv demoGen demoScriptTwice false).map (fun r => (r.val, r.err))
      = some ([("a".toList, "m|cache:a:id|Insert()\nFindOne()\nUpdate()\nDelete()".toList)],
          none) ∧
    ∃ r, genFromDDL demoEnv demoGen demoScriptTwice false = some r ∧ r.err = none ∧
      (r.val.map Prod.fst).Nodup ∧
      (∀ name, name ∈ r.val.map Prod.fst ↔
        ∃ ddl ∈ segmentsAt demoScriptTwice (matchStarts (demoEnv.reg demoScriptTwice)),
          (demoEnv.Parse ddl).1.Name = name) ∧
      ∀ name, mapGet r.val name =
        ((segmentsAt demoScriptTwice (matchStarts (demoEnv.reg demoScriptTwice))).find?
          (fun ddl => (demoEnv.Parse ddl).1.Name = name)).map
          (fun ddl => (genModel demoEnv demoGen (demoEnv.Parse ddl).1 false).val) :=
  ⟨⟨by decide, by decide⟩, by decide,
    genFromDDL_first_statement_wins demoEnv demoGen demoScriptTwice false (by decide)
      (by decide)⟩

/-- C5, refuted as stated: in the batch of three tables whose second
statement does not parse, and in the batch whose second table has no primary
key, `StartFromDDL` returns the error of table `b` and writes no file for the
tables `a` and `c`, although the batch of `a` and `c` alone yields both files;
`StartFromInformationSchema` does the same on three tables of which the
second has no primary key. -/
theorem StartFromDDL_no_isolation :
    (StartFromDDL demoEnv demoBatchMalformed false demoWorld).map
        (fun r => (r.err, r.w.fs "/m/amodel.go".toList, r.w.fs "/m/cmodel.go".toList))
      = some (some ⟨"syntax error near b".toList⟩, none, none) ∧
    (StartFromDDL demoEnv demoBatchNoKey false demoWorld).map
        (fun r => (r.err, r.w.fs "/m/amodel.go".toList, r.w.fs "/m/cmodel.go".toList))
      = some (some ⟨"table b: missing primary key".toList⟩, none, none) ∧
    (StartFromDDL demoEnv demoBatchSiblings false demoWorld).map
        (fun r => (r.err, (r.w.fs "/m/amodel.go".toList).isSome,
          (r.w.fs "/m/cmodel.go".toList).isSome))
      = some (none, true, true) ∧
    ((StartFromInformationSchema demoEnv demoTables false demoWorld).err,
        (StartFromInformationSchema demoEnv demoTables false demoWorld).w.fs "/m/amodel.go".toList,
        (StartFromInformationSchema demoEnv demoTables false demoWorld).w.fs "/m/cmodel.go".toList)
      = (some ⟨"table b: missing primary key".toList⟩, none, none) :=
  ⟨by decide, by decide, by decide, by decide⟩

/-- C5, amended: a batch fails as a whole. When a statement of the script
fails to parse or its table fails to generate (an empty primary key
included), `StartFromDDL` returns an error, leaves the generator and the file
system as they were, and its log holds no entry into `createFile` and no file
write: no table of the batch gets a file. `StartFromInformationSchema` behaves
the same when a table fails to convert or to generate. -/
theorem StartFromDDL_fails_whole_batch (E : Env) (withCache : Bool) (w : World) :
    (∀ source, BoundaryMatches source.length (E.reg source) →
      (∃ ddl ∈ segmentsAt source (matchStarts (E.reg source)),
        (E.Parse ddl).2 ≠ none ∨ (genModel E w.g (E.Parse ddl).1 withCache).err ≠ none) →
      ∃ r, StartFromDDL E source withCache w = some r ∧ r.err ≠ none ∧ r.w = w ∧
        Event.createFile ∉ r.log ∧ ∀ path data err, Event.writeFile path data err ∉ r.log) ∧
    (∀ tables : List ModelTable,
      (∃ each ∈ tables, (E.ConvertDataType each).2 ≠ none ∨
        (genModel E w.g (E.ConvertDataType each).1 withCache).err ≠ none) →
      (StartFromInformationSchema E tables withCache w).err ≠ none ∧
      (StartFromInformationSchema E tables withCache w).w = w ∧
      Event.createFile ∉ (StartFromInformationSchema E tables withCache w).log ∧
      ∀ path data err,
        Event.writeFile path data err ∉ (StartFromInformationSchema E tables withCache w).log) := by
  constructor
  · intro source hm hfail
    have hsplit := splitLoop_eq (E.reg source) source [] hm
    have herr := genFromDDLLoop_err E w.g withCache
      (segmentsAt source (matchStarts (E.reg source))).reverse []
      (by obtain ⟨ddl, hd, hf⟩ := hfail; exact ⟨ddl, List.mem_reverse.2 hd, hf⟩)
    have hgen := genFromDDLLoop_log_isGen E w.g withCache
      (segmentsAt source (matchStarts (E.reg source))).reverse []
    refine ⟨⟨(genFromDDLLoop E w.g withCache
      (segmentsAt source (matchStarts (E.reg source))).reverse []).err, w,
      (genFromDDLLoop E w.g withCache
        (segmentsAt source (matchStarts (E.reg source))).reverse []).log⟩, ?_, herr, rfl, ?_, ?_⟩
    · simp only [StartFromDDL, genFromDDL, split]
      rw [hsplit]
      simp only [List.nil_append]
      rw [if_pos herr]
    · intro hc
      have := hgen _ hc
      simp [Event.isGen] at this
    · intro path data err hc
      have := hgen _ hc
      simp [Event.isGen] at this
  · intro tables hfail
    have herr := informationSchemaLoop_err E w.g withCache tables [] hfail
    have hgen := informationSchemaLoop_log_isGen E w.g withCache tables []
    have heq : StartFromInformationSchema E tables withCache w =
        ⟨(informationSchemaLoop E w.g withCache tables []).err, w,
          (informationSchemaLoop E w.g withCache tables []).log⟩ := by
      simp only [StartFromInformationSchema]
      rw [if_pos herr]
    rw [heq]
    refine ⟨herr, rfl, ?_, ?_⟩
    · intro hc
      have := hgen _ hc
      simp [Event.isGen] at this
    · intro path data err hc
      have := hgen _ hc
      simp [Event.isGen] at this

/-- C5, amended, at the batch of three tables whose second statement does
not parse: an error, the world as it was, nothing written. -/
theorem StartFromDDL_fails_whole_batch_witness :
    (BoundaryMatches demoBatchMalformed.length (demoEnv.reg demoBatchMalformed) ∧
      ∃ ddl ∈ segmentsAt demoBatchMalformed (matchStarts (demoEnv.reg demoBatchMalformed)),
        (demoEnv.Parse ddl).2 ≠ none ∨
          (genModel demoEnv demoWorld.g (demoEnv.Parse ddl).1 false).err ≠ none) ∧
    ∃ r, StartFromDDL demoEnv demoBatchMalformed false demoWorld = some r ∧ r.err ≠ none ∧
      r.w = demoWorld ∧ Event.createFile ∉ r.log ∧
      ∀ path data err, Event.writeFile path data err ∉ r.log :=
  ⟨⟨by decide, by decide⟩,
    (StartFromDDL_fails_whole_batch demoEnv false demoWorld).1 demoBatchMalformed
      (by decide) (by decide)⟩

/-! ## The output materializer: claims -/

/-- C6, refuted as stated: on a full disk, with the hand-edited
`/m/amodel.go` in place and table `c` visited first, the write of
`/m/cmodel.go` fails, `createFile` returns that error, and no warning is
reported for the existing file of table `a`: the log holds the entry into
`createFile` and the failed write only. -/
theorem createFile_no_warning_behind_failure :
    ((("a".toList, "code a".toList) ∈ demoModelsCFirst ∧
      (demoEnvDiskFull.FileNamingFormat demoWorldEdited.g.NamingFormat
        ("a".toList ++ "_model".toList)).2 = none) ∧
      tablePath demoEnvDiskFull demoWorldEdited.g.NamingFormat
        (demoEnvDiskFull.Abs demoWorldEdited.g.dir).1 "a".toList = "/m/amodel.go".toList ∧
      demoWorldEdited.fs "/m/amodel.go".toList = some "mine".toList) ∧
    (createFile demoEnvDiskFull demoModelsCFirst demoWorldEdited).err
      = some ⟨"disk full".toList⟩ ∧
    (createFile demoEnvDiskFull demoModelsCFirst demoWorldEdited).log
      = [Event.createFile,
          Event.writeFile "/m/cmodel.go".toList "code c".toList (some ⟨"disk full".toList⟩)] ∧
    Event.warning "amodel.go already exists, ignored.".toList
      ∉ (createFile demoEnvDiskFull demoModelsCFirst demoWorldEdited).log :=
  ⟨⟨⟨by decide, by decide⟩, by decide, by decide⟩, by decide, by decide, by decide⟩

/-- C6, amended: skip-if-exists. For every model list and every file system,
when the file `createFile` computes for a table of the list (the naming format
of `<table>_model`, plus `.go`, in the destination directory) exists before
the call: the loop over the tables leaves its content as it was; `createFile`
never calls `ioutil.WriteFile` on it; after `createFile` its content is what
it was before, provided it is not also the path of the shared vars file, which
`SaveTo` writes; the table on its own is answered with the warning
`<file> already exists, ignored.` and no error; that warning is in the log of
every run of `createFile` that returns no error; and it is in the log of every
run that reaches the table, that is, in which the directory is resolved and
made and the tables visited before it run without an error, whatever happens
after it. -/
theorem createFile_skips_existing (E : Env) (modelList : GoMap) (w : World)
    (tableName code : GoString) (hmem : (tableName, code) ∈ modelList)
    (hname : (E.FileNamingFormat w.g.NamingFormat (tableName ++ "_model".toList)).2 = none)
    (hexists : (w.fs (tablePath E w.g.NamingFormat (E.Abs w.g.dir).1 tableName)).isSome = true) :
    (createFileLoop E (E.Abs w.g.dir).1 modelList (inDir E w)).w.fs
        (tablePath E w.g.NamingFormat (E.Abs w.g.dir).1 tableName)
      = w.fs (tablePath E w.g.NamingFormat (E.Abs w.g.dir).1 tableName) ∧
    (∀ data err, Event.writeFile (tablePath E w.g.NamingFormat (E.Abs w.g.dir).1 tableName)
      data err ∉ (createFile E modelList w).log) ∧
    (tablePath E w.g.NamingFormat (E.Abs w.g.dir).1 tableName
        ≠ varsPath E w.g.NamingFormat (E.Abs w.g.dir).1 →
      (createFile E modelList w).w.fs (tablePath E w.g.NamingFormat (E.Abs w.g.dir).1 tableName)
        = w.fs (tablePath E w.g.NamingFormat (E.Abs w.g.dir).1 tableName)) ∧
    createFileLoop E (E.Abs w.g.dir).1 [(tableName, code)] (inDir E w)
      = ⟨none, inDir E w, [skipWarning E w.g.NamingFormat tableName]⟩ ∧
    ((createFile E modelList w).err = none →
      skipWarning E w.g.NamingFormat tableName ∈ (createFile E modelList w).log) ∧
    (∀ pre post, modelList = pre ++ (tableName, code) :: post →
      (E.Abs w.g.dir).2 = none → E.MkdirIfNotExist (E.Abs w.g.dir).1 w.fs = none →
      (createFileLoop E (E.Abs w.g.dir).1 pre (inDir E w)).err = none →
      skipWarning E w.g.NamingFormat tableName ∈ (createFile E modelList w).log) := by
  have hframe := createFileLoop_frame E (E.Abs w.g.dir).1
    (tablePath E w.g.NamingFormat (E.Abs w.g.dir).1 tableName) modelList (inDir E w) hexists
  refine ⟨hframe, ?_, ?_, ?_, ?_, ?_⟩
  · intro data err h
    exact createFileLoop_no_write E (E.Abs w.g.dir).1 _ modelList (inDir E w) hexists data err
      (createFile_writes E modelList w _ data err h)
  · intro hne
    rcases createFile_fs E modelList w _ hne with h | h
    · exact h
    · rw [h]; exact hframe
  · exact createFileLoop_all_skipped E (E.Abs w.g.dir).1 [(tableName, code)] (inDir E w)
      (by
        intro entry he
        rw [List.mem_singleton] at he
        subst he
        exact ⟨hname, hexists⟩)
  · intro hok
    obtain ⟨h1, h2, h3, -⟩ := createFile_ok E modelList w hok
    exact createFile_log_of_loop E modelList w h1 h2 _
      (createFileLoop_warns E (E.Abs w.g.dir).1 tableName modelList (inDir E w) h3
        (List.mem_map.2 ⟨(tableName, code), hmem, rfl⟩) hexists)
  · intro pre post hlist h1 h2 hpre
    subst hlist
    exact createFile_log_of_loop E _ w h1 h2 _
      (createFileLoop_warns_reached E (E.Abs w.g.dir).1 tableName code pre post (inDir E w)
        hname hexists hpre)

/-- C6, amended, at the example world with a hand-edited `/m/amodel.go`, on
a full disk and with table `a` visited first: the file still reads `mine`, the
warning for it is logged, and then the write of `/m/cmodel.go` fails and
`createFile` returns that error. -/
theorem createFile_skips_existing_witness :
    ((("a".toList, "code a".toList) ∈ demoModels ∧
      (demoEnvDiskFull.FileNamingFormat demoWorldEdited.g.NamingFormat
        ("a".toList ++ "_model".toList)).2 = none) ∧
      tablePath demoEnvDiskFull demoWorldEdited.g.NamingFormat
        (demoEnvDiskFull.Abs demoWorldEdited.g.dir).1 "a".toList = "/m/amodel.go".toList ∧
      demoWorldEdited.fs "/m/amodel.go".toList = some "mine".toList) ∧
    ((createFile demoEnvDiskFull demoModels demoWorldEdited).w.fs "/m/amodel.go".toList
        = some "mine".toList ∧
      (createFile demoEnvDiskFull demoModels demoWorldEdited).err
        = some ⟨"disk full".toList⟩) ∧
    Event.warning "amodel.go already exists, ignored.".toList
      ∈ (createFile demoEnvDiskFull demoModels demoWorldEdited).log :=
  ⟨⟨⟨by decide, by decide⟩, by decide, by decide⟩, ⟨by decide, by decide⟩,
    (createFile_skips_existing demoEnvDiskFull demoModels demoWorldEdited "a".toList
      "code a".toList (by decide) (by decide) (by decide)).2.2.2.2.2 []
      [("c".toList, "code c".toList)] (by decide) (by decide) (by decide) (by decide)⟩

/-- C7: skip-if-exists idempotence. After a run of `createFile` that returned
no error, a second run for the same destination directory and naming format,
on the same model list in any order, on a file system from which no file has
been removed in between: calls `ioutil.WriteFile` not once; leaves every path
but that of the shared vars file as it found it, so that with nothing changed
in between the table files are those of the first run; and, once its
directory check has passed, logs the warning of every table of the list. -/
theorem createFile_second_run_skips_all (E : Env) (modelList : GoMap) (w : World)
    (hfirst : (createFile E modelList w).err = none) (w₂ : World) (modelList₂ : GoMap)
    (hdir : E.Abs w₂.g.dir = E.Abs w.g.dir) (hfmt : w₂.g.NamingFormat = w.g.NamingFormat)
    (hkeep : ∀ p, ((createFile E modelList w).w.fs p).isSome = true → (w₂.fs p).isSome = true)
    (hsame : modelList₂.Perm modelList) :
    (∀ path data err, Event.writeFile path data err ∉ (createFile E modelList₂ w₂).log) ∧
    (∀ p, p ≠ varsPath E w.g.NamingFormat (E.Abs w.g.dir).1 →
      (createFile E modelList₂ w₂).w.fs p = w₂.fs p) ∧
    (w₂.fs = (createFile E modelList w).w.fs →
      ∀ p, p ≠ varsPath E w.g.NamingFormat (E.Abs w.g.dir).1 →
        (createFile E modelList₂ w₂).w.fs p = (createFile E modelList w).w.fs p) ∧
    (E.MkdirIfNotExist (E.Abs w.g.dir).1 w₂.fs = none →
      ∀ entry ∈ modelList,
        skipWarning E w.g.NamingFormat entry.1 ∈ (createFile E modelList₂ w₂).log) := by
  obtain ⟨h1, -, h3, h4⟩ := createFile_ok E modelList w hfirst
  have hall := createFileLoop_ok E (E.Abs w.g.dir).1 modelList (inDir E w) h3
  have hskip : createFileLoop E (E.Abs w₂.g.dir).1 modelList₂ (inDir E w₂) =
      ⟨none, inDir E w₂, modelList₂.map fun entry => skipWarning E w₂.g.NamingFormat entry.1⟩ := by
    apply createFileLoop_all_skipped
    intro entry he
    obtain ⟨hn, hx⟩ := hall entry (hsame.subset he)
    have hn' : (E.FileNamingFormat w.g.NamingFormat (entry.1 ++ "_model".toList)).2 = none := hn
    have hx' : ((createFileLoop E (E.Abs w.g.dir).1 modelList (inDir E w)).w.fs
        (tablePath E w.g.NamingFormat (E.Abs w.g.dir).1 entry.1)).isSome = true := hx
    show (E.FileNamingFormat w₂.g.NamingFormat (entry.1 ++ "_model".toList)).2 = none ∧
      (w₂.fs (tablePath E w₂.g.NamingFormat (E.Abs w₂.g.dir).1 entry.1)).isSome = true
    rw [hfmt, hdir]
    exact ⟨hn', hkeep _ (h4 _ hx')⟩
  have hfs : ∀ p, p ≠ varsPath E w.g.NamingFormat (E.Abs w.g.dir).1 →
      (createFile E modelList₂ w₂).w.fs p = w₂.fs p := by
    intro p hp
    rcases createFile_fs E modelList₂ w₂ p (by rw [hfmt, hdir]; exact hp) with h | h
    · exact h
    · rw [h, hskip]
      rfl
  refine ⟨?_, hfs, ?_, ?_⟩
  · intro path data err h
    have := createFile_writes E modelList₂ w₂ path data err h
    rw [hskip] at this
    simp [skipWarning] at this
  · intro heq p hp
    rw [hfs p hp, heq]
  · intro hmk entry he
    have hin := createFile_log_of_loop E modelList₂ w₂ (by rw [hdir]; exact h1)
      (by rw [hdir]; exact hmk)
    apply hin
    rw [hskip]
    show skipWarning E w.g.NamingFormat entry.1
      ∈ modelList₂.map fun entry => skipWarning E w₂.g.NamingFormat entry.1
    rw [hfmt]
    exact List.mem_map.2 ⟨entry, hsame.symm.subset he, rfl⟩

/-- C7 at the example world: `createFile` on the tables `a` and `c`, then
again, in the other order, on the world the first run has left. The second run
logs its entry, the two warnings, the vars file and the success line, and no
file write. -/
theorem createFile_second_run_skips_all_witness :
    (createFile demoEnv demoModels demoWorld).err = none ∧
    (createFile demoEnv demoModels.reverse (createFile demoEnv demoModels demoWorld).w).log
      = [Event.createFile, Event.warning "cmodel.go already exists, ignored.".toList,
          Event.warning "amodel.go already exists, ignored.".toList,
          Event.saveTo "/m/vars.go".toList none, Event.success "Done.".toList] ∧
    ∀ path data err, Event.writeFile path data err ∉
      (createFile demoEnv demoModels.reverse (createFile demoEnv demoModels demoWorld).w).log :=
  ⟨by decide, by decide,
    (createFile_second_run_skips_all demoEnv demoModels demoWorld (by decide)
      (createFile demoEnv demoModels demoWorld).w demoModels.reverse (by decide) (by decide)
      (fun _ h => h) (List.reverse_perm demoModels)).1⟩
end Gorm
